import Mathlib

set_option maxRecDepth 4096

/-
Verification development for the context-hub scripts of the ios-template
repository (.context/scripts/): scanner.py, rules_indexer.py,
generate_claude_context.py, master_indexer.py.

Strings are modelled by Lean `String` (a packed `List Char`); Python's
substring test `needle in hay` is the contiguous-sublist test on the
character lists.  Python floats appearing in the scripts are only ever
exact small decimals (0.3, 0.5, 0.6, 0.85, 0.9, 1.0) used in comparisons
and divisions of small integers, so they are modelled as exact rationals;
threshold comparisons such as `token_count > max_tokens * 0.6` are
expressed by the equivalent integer cross-multiplication
(`5 * token_count > 3 * max_tokens`).  Rational values are built with
`mkRat` / `Rat.divInt` (the exact quotient) so that all definitions
evaluate by kernel reduction.
-/

/-- Exact division of two rationals, computed on numerators/denominators;
`qdiv_eq_div` below shows it agrees with `·/·` on `ℚ`. -/
def qdiv (a b : ℚ) : ℚ := Rat.divInt (a.num * b.den) (a.den * b.num)

theorem qdiv_eq_div (a b : ℚ) : qdiv a b = a / b := by
  rcases eq_or_ne b 0 with rfl | hb
  · simp [qdiv]
  · have hda : ((a.den : ℚ)) ≠ 0 := (Nat.cast_pos.mpr a.pos).ne'
    have hdb : ((b.den : ℚ)) ≠ 0 := (Nat.cast_pos.mpr b.pos).ne'
    have hnb : ((b.num : ℚ)) ≠ 0 := by exact_mod_cast Rat.num_ne_zero.mpr hb
    rw [qdiv, Rat.divInt_eq_div]
    conv_rhs => rw [← Rat.num_div_den a, ← Rat.num_div_den b]
    push_cast
    field_simp

/-- Python `str.strip()` on a character list: drop whitespace from both ends. -/
def trimChars (l : List Char) : List Char :=
  ((l.dropWhile Char.isWhitespace).reverse.dropWhile Char.isWhitespace).reverse

/-- Python `needle in hay` (contiguous substring test) on character lists. -/
def containsSub (needle hay : List Char) : Bool :=
  match hay with
  | [] => needle.isEmpty
  | _ :: t => needle.isPrefixOf hay || containsSub needle t

theorem isPrefixOf_iff_isPrefix {l₁ l₂ : List Char} :
    l₁.isPrefixOf l₂ = true ↔ l₁ <+: l₂ := by
  induction l₁ generalizing l₂ with
  | nil => simp [List.isPrefixOf]
  | cons a t ih =>
    cases l₂ with
    | nil => simp [List.isPrefixOf]
    | cons b t₂ =>
      simp [List.isPrefixOf, List.cons_prefix_cons, ih, Bool.and_eq_true, beq_iff_eq]

theorem containsSub_iff_isInfix {needle hay : List Char} :
    containsSub needle hay = true ↔ needle <:+: hay := by
  induction hay with
  | nil =>
    simp [containsSub, List.isEmpty_iff]
  | cons b t ih =>
    simp only [containsSub, Bool.or_eq_true, ih, isPrefixOf_iff_isPrefix]
    constructor
    · rintro (h | h)
      · exact h.isInfix
      · exact h.trans (List.suffix_cons b t).isInfix
    · intro h
      rcases h with ⟨s, u, hsu⟩
      cases s with
      | nil =>
        left
        exact ⟨u, by simpa using hsu⟩
      | cons x xs =>
        right
        rw [List.cons_append] at hsu
        injection hsu with _ h2
        exact ⟨xs, u, by rw [← h2]; simp [List.append_eq, List.append_assoc]⟩

theorem containsSub_append_left {needle l₁ : List Char} (l₂ : List Char)
    (h : containsSub needle l₁ = true) : containsSub needle (l₁ ++ l₂) = true := by
  rw [containsSub_iff_isInfix] at h ⊢
  exact h.trans (List.prefix_append l₁ l₂).isInfix

theorem containsSub_append_right {needle l₂ : List Char} (l₁ : List Char)
    (h : containsSub needle l₂ = true) : containsSub needle (l₁ ++ l₂) = true := by
  rw [containsSub_iff_isInfix] at h ⊢
  exact h.trans (List.suffix_append l₁ l₂).isInfix

/-- Python `content.split('\n')`. -/
def splitNl : List Char → List (List Char)
  | [] => [[]]
  | c :: r =>
    if c = '\n' then [] :: splitNl r
    else
      match splitNl r with
      | h :: t => (c :: h) :: t
      | [] => [[c]]

/-- Python `str.lower()` (the scripts only feed it ASCII text, where it is
per-character lowercasing). -/
def lowerStr (s : String) : String := ⟨s.toList.map Char.toLower⟩

/-- Substring test on `String`s, as Python's `in` operator. -/
def substrB (needle hay : String) : Bool := containsSub needle.toList hay.toList

/-! ## `generate_claude_context.py` — `ClaudeContextGenerator.analyze_task` -/

/-- The keyword table of `analyze_task` (`module_keywords`, source lines 39-48),
in Python dict insertion order. -/
def module_keywords : List (String × List String) :=
  [ ("Core", ["state", "reducer", "action", "store", "tca", "architecture", "config"]),
    ("Features", ["screen", "view", "feature", "user interface", "ui", "page",
                  "onboarding", "auth", "settings", "home", "profile"]),
    ("Services", ["service", "api", "business", "logic", "manager", "firebase", "analytics"]),
    ("Theme", ["theme", "color", "style", "dark mode", "typography", "design", "spacing"]),
    ("Network", ["network", "api", "request", "http", "endpoint", "fetch", "moya"]),
    ("Storage", ["storage", "database", "cache", "persist", "save", "keychain", "userdefaults"]),
    ("Monetization", ["iap", "purchase", "subscription", "admob", "ads", "revenue", "appsflyer"]),
    ("Utilities", ["extension", "helper", "utility", "util", "common"]) ]

/-- `score = sum(1 for keyword in keywords if keyword in task_lower)`
(source line 54). -/
def keywordScore (kws : List String) (taskLower : String) : ℕ :=
  (kws.filter (fun k => substrB k taskLower)).length

/-- The `relevance_scores` dict after the scoring loop (source lines 51-56):
modules with a positive keyword count, mapped to `score / len(keywords)`. -/
def rawScores (taskLower : String) : List (String × ℚ) :=
  module_keywords.filterMap (fun p =>
    let s := keywordScore p.2 taskLower
    if 0 < s then some (p.1, mkRat s p.2.length) else none)

/-- `max(relevance_scores.values())` (source line 60); total fold with 0 as
base, which agrees with Python `max` on the nonempty lists it is applied to. -/
def maxVal (rs : List (String × ℚ)) : ℚ := (rs.map Prod.snd).foldr max 0

/-- The normalisation applied to a nonempty `relevance_scores` dict (source
lines 58-65): divide every score by the maximum, then force the `Core` module
in at 0.3 when it is not already present. -/
def normalizeScores (rs : List (String × ℚ)) : List (String × ℚ) :=
  let norm := rs.map (fun p => (p.1, qdiv p.2 (maxVal rs)))
  if norm.any (fun p => p.1 == "Core") then norm
  else norm ++ [("Core", mkRat 3 10)]

/-- `ClaudeContextGenerator.analyze_task` (source lines 34-67): lowercase the
task, score each module, drop zero scores, and — when any module matched —
normalise by the maximum and force `Core` in. -/
def analyze_task (task : String) : List (String × ℚ) :=
  match rawScores (lowerStr task) with
  | [] => []
  | r :: rest => normalizeScores (r :: rest)

/-- Score lookup in the returned dict (Python `scores[m]` / `m in scores`). -/
def scoreOf (m : String) (scores : List (String × ℚ)) : Option ℚ :=
  (scores.find? (fun p => p.1 == m)).map Prod.snd

/-! ## `generate_claude_context.py` — `ClaudeContextGenerator.generate_context`

The generator reads `config.json` (for `claude_max_tokens`), the per-module
JSON documents, `rules.json` and `quick_reference.json`; none of these data
files are part of the sources, so their parsed contents are inputs here,
collected in `GenEnv`.  `datetime.now()` is the input `now`. -/

/-- One persisted per-module JSON document (`.context/modules/<name>.json`),
with the fields `generate_context` reads (`.get` defaults apply to keys absent
from the JSON; the parsed document is modelled with all fields present). -/
structure ModuleData where
  purpose : String
  total_files : ℕ
  total_loc : ℕ
  key_symbols : List String
  dependencies : List String
  files : List String
deriving DecidableEq

/-- A rule as stored in `rules.json` (only `text` and `priority` are read by
`generate_context`). -/
structure RuleR where
  text : String
  priority : String
deriving DecidableEq

/-- The `rules.json` document: rules bucketed by priority. -/
structure RulesDoc where
  critical : List RuleR
  high : List RuleR
  medium : List RuleR
  low : List RuleR
deriving DecidableEq

/-- The inputs of one `generate_context` run: the configured token budget,
the timestamp, and the persisted documents (`none` = file does not exist;
for a module document, `none` also covers an empty JSON object, which is
falsy at the use site). -/
structure GenEnv where
  maxTokens : ℕ
  now : String
  docs : String → Option ModuleData
  rulesDoc : Option RulesDoc
  quickRef : Option (List String)

/-- `ClaudeContextGenerator.estimate_tokens` (source lines 102-105). -/
def estimate_tokens (text : String) : ℕ := text.length / 4

/-- `ClaudeContextGenerator.load_module_data` (source lines 69-75): look up the
persisted per-module document. -/
def load_module_data (env : GenEnv) (m : String) : Option ModuleData := env.docs m

/-- `ClaudeContextGenerator.load_rules(['critical', 'high'])` (source lines
77-91): the first 5 critical rules followed by the first 5 high rules
(`all_rules[priority][:5]`), or `[]` when `rules.json` does not exist. -/
def load_rules (env : GenEnv) : List RuleR :=
  match env.rulesDoc with
  | none => []
  | some d => d.critical.take 5 ++ d.high.take 5

/-- Python `str.upper()` (ASCII input). -/
def upperStr (s : String) : String := ⟨s.toList.map Char.toUpper⟩

/-- Helper for Python's `{n:,}` format: commas every three digits. -/
def commaGroup : List Char → List Char
  | d₁ :: d₂ :: d₃ :: d₄ :: rest => d₁ :: d₂ :: d₃ :: ',' :: commaGroup (d₄ :: rest)
  | l => l

/-- Python `f"{n:,}"` for a natural number. -/
def commaSep (n : ℕ) : String := ⟨(commaGroup (Nat.repr n).toList.reverse).reverse⟩

/-- Python `f"{q:.0%}"`: the percentage rounded to an integer (rounding half
up; CPython rounds the underlying float half to even, which can differ only on
exact half-percent values — immaterial to every property proved here). -/
def fmtPercent (q : ℚ) : String :=
  Int.repr ((2 * (q.num * 100) + q.den).fdiv (2 * q.den)) ++ "%"

/-- The header block (part 1 of the context, source lines 127-168), with the
task description and timestamp interpolated. -/
def headerText (task now : String) : String :=
  "# 🎯 CONTEXT FOR TASK\n\n**Task**: " ++ task ++ "\n\n**Generated**: " ++ now ++
  "\n\n---\n\n## 📱 Project Overview\n\n- **Name**: ios-template\n- **Architecture**: TCA (The Composable Architecture) + Parameterized Component Pattern\n- **UI Framework**: SwiftUI\n- **iOS Target**: 16.0+\n- **Language**: Swift 5.9+\n\n### Key Architectural Pattern: Parameterized Component\n\nThis project uses a unique pattern where:\n- **Components** = View + Config\n- Views are pure rendering (NO hardcoded values)\n- Configs contain all customization (data, callbacks, styling)\n- Enables one template for multiple apps without forking\n\nExample:\n```swift\n// Config\nstruct OnboardingConfig \x7b\n    let pages: [Page]\n    let onComplete: () -> Void\n\x7d\n\n// View\nstruct OnboardingView: View \x7b\n    let config: OnboardingConfig\n    // Uses config for everything\n\x7d\n```\n\n---\n\n"

/-- Part-2 section header (source line 171). -/
def modulesHeader : String := "## 📦 Relevant Modules\n\n"

/-- Part-3 section header (source line 202). -/
def rulesHeader : String := "\n---\n\n## ⚠️ CRITICAL RULES\n\n"

/-- One module summary block (`module_section`, source lines 181-197). -/
def moduleSection (name : String) (score : ℚ) (d : ModuleData) : String :=
  "### " ++ name ++ " (Relevance: " ++ fmtPercent score ++ ")\n\n**Purpose**: " ++
  d.purpose ++ "\n\n**Statistics**:\n- Files: " ++ Nat.repr d.total_files ++
  "\n- Lines of Code: " ++ commaSep d.total_loc ++ "\n\n**Key Symbols**:\n" ++
  String.intercalate ", " (d.key_symbols.take 8) ++ "\n\n**Dependencies**: " ++
  (let dep := String.intercalate ", " (d.dependencies.take 5)
   if dep.isEmpty then "None" else dep) ++
  "\n\n**Main Files**:\n" ++
  String.intercalate "\n" ((d.files.take 6).map (fun f => "- " ++ f)) ++ "\n\n"

/-- One numbered rule line (`rule_text`, source line 209). -/
def ruleLine (i : ℕ) (r : RuleR) : String :=
  Nat.repr i ++ ". **[" ++ upperStr r.priority ++ "]** " ++ r.text ++ "\n\n"

/-- The instructional footer (part 5, source lines 227-256), with the task and
the final running token estimate interpolated. -/
def footerText (task : String) (tc : ℕ) : String :=
  "\n\n---\n\n## 💡 Instructions for Implementation\n\n**Your Task**: " ++ task ++
  "\n\n**Follow These Guidelines**:\n\n1. **TCA Architecture**: Use State → Action → Reducer → Effect pattern\n2. **Parameterized Components**: NO hardcoded values in Views\n   - Create Config object in `Core/ViewConfigs/`\n   - Implement View in `Features/`\n3. **SwiftUI Best Practices**: Use @ObservableState, proper state management\n4. **Error Handling**: Add appropriate error handling and validation\n5. **Testing**: Consider test coverage (target: 80%+)\n\n**File Organization**:\n- Configs → `Sources/iOSTemplate/Core/ViewConfigs/`\n- Views → `Sources/iOSTemplate/Features/`\n- Reducers → `Sources/iOSTemplate/Core/`\n- Services → `Sources/iOSTemplate/Services/`\n\n**Estimated Context Size**: ~" ++
  commaSep tc ++ " tokens\n\n---\n\n*Context generated by Context Hub v1.0*\n"

/-- Stable insertion of one scored module into a list sorted by descending
score (ties keep the earlier element first). -/
def insertDesc (x : String × ℚ) : List (String × ℚ) → List (String × ℚ)
  | [] => [x]
  | y :: t => if y.2 ≤ x.2 then x :: y :: t else y :: insertDesc x t

/-- Python `sorted(relevance_scores.items(), key=lambda x: x[1], reverse=True)`
(source line 119): the stable descending order by score.  Python's `sorted` is
stable, and the stable descending arrangement is unique, so any stable sort
computes it; a stable insertion sort is used here. -/
def sortDesc (l : List (String × ℚ)) : List (String × ℚ) := l.foldr insertDesc []

/-- The relevance map actually used by `generate_context` (source lines
112-116): `analyze_task`'s result, or the fixed fallback pair when it is
empty. -/
def effectiveScores (task : String) : List (String × ℚ) :=
  match analyze_task task with
  | [] => [("Core", 1), ("Features", mkRat 1 2)]
  | rs => rs

/-- `relevant_modules` (source line 119). -/
def rankedModules (task : String) : List (String × ℚ) := sortDesc (effectiveScores task)

/-- The module-section loop (source lines 175-199).  The Python float check
`token_count > self.max_tokens * 0.6` is the exact integer comparison
`5 * token_count > 3 * max_tokens`.  Each appended section is paired with the
running estimate held when its threshold check passed (the loop checks before
appending and only counts the section afterwards); the appended parts are the
second components. -/
def moduleLoop (env : GenEnv) : List (String × ℚ) → ℕ → List (ℕ × String) × ℕ
  | [], tc => ([], tc)
  | (m, s) :: rest, tc =>
    if 3 * env.maxTokens < 5 * tc then ([], tc)
    else
      match load_module_data env m with
      | none => moduleLoop env rest tc
      | some d =>
        let sec := moduleSection m s d
        let res := moduleLoop env rest (tc + estimate_tokens sec)
        ((tc, sec) :: res.1, res.2)

/-- The rules loop (source lines 205-211), numbering from `i`; the check
`token_count > self.max_tokens * 0.85` is `20 * token_count > 17 * max_tokens`. -/
def rulesLoop (b : ℕ) : ℕ → ℕ → List RuleR → List String × ℕ
  | _, tc, [] => ([], tc)
  | i, tc, r :: rest =>
    if 17 * b < 20 * tc then ([], tc)
    else
      let line := ruleLine i r
      let res := rulesLoop b (i + 1) (tc + estimate_tokens line) rest
      (line :: res.1, res.2)

/-- The quick-reference section (part 4, source lines 214-224); the check
`token_count < self.max_tokens * 0.9` is `10 * token_count < 9 * max_tokens`.
These appends do not update the running estimate. -/
def quickRefParts (env : GenEnv) (tc : ℕ) : List String :=
  match env.quickRef with
  | none => []
  | some topRules =>
    if 10 * tc < 9 * env.maxTokens then
      "\n---\n\n## ⚡ Quick Reference\n\n" ::
        (if topRules.isEmpty then []
         else "**Most Important Rules**:\n" ::
           (topRules.take 5).map (fun r => "- " ++ r ++ "\n"))
    else []

/-- `token_count` right after the header (source line 173). -/
def tcHeader (env : GenEnv) (task : String) : ℕ := estimate_tokens (headerText task env.now)

/-- The module loop's instrumented result on the top-5 ranked modules. -/
def modulesResult (env : GenEnv) (task : String) : List (ℕ × String) × ℕ :=
  moduleLoop env ((rankedModules task).take 5) (tcHeader env task)

/-- The running estimate at the point rule-section assembly begins. -/
def tcAfterModules (env : GenEnv) (task : String) : ℕ := (modulesResult env task).2

/-- The rules loop's result on `rules[:12]`. -/
def rulesResult (env : GenEnv) (task : String) : List String × ℕ :=
  rulesLoop env.maxTokens 1 (tcAfterModules env task) ((load_rules env).take 12)

/-- The running estimate after the rules section (also interpolated into the
footer; the quick-reference section does not update it). -/
def tcFinal (env : GenEnv) (task : String) : ℕ := (rulesResult env task).2

/-- `context_parts` at the end of `generate_context` (source lines 124-256). -/
def contextParts (env : GenEnv) (task : String) : List String :=
  [headerText task env.now, modulesHeader] ++ (modulesResult env task).1.map Prod.snd
    ++ [rulesHeader] ++ (rulesResult env task).1
    ++ quickRefParts env (tcFinal env task) ++ [footerText task (tcFinal env task)]

/-- `ClaudeContextGenerator.generate_context` (source lines 107-261):
`''.join(context_parts)`. -/
def generate_context (env : GenEnv) (task : String) : String :=
  String.join (contextParts env task)

/-! ## `rules_indexer.py` — `RulesIndexer.parse_markdown_rule` -/

/-- A rule extracted from a markdown document (`source_file` is `None` inside
`parse_markdown_rule`; the caller fills it in later). -/
structure MdRule where
  text : String
  category : String
  priority : String
  source_file : Option String
deriving DecidableEq

/-- Greedy match of the regex alternative `\d+\.` at the head of `l`: if `l`
starts with one or more digits immediately followed by `'.'`, the characters
after the dot, else `none`.  (Backtracking inside `\d+` cannot succeed when
the maximal run is not followed by a dot, because the blocking character is
then another digit or a non-dot.) -/
def digitRunDot (l : List Char) : Option (List Char) :=
  if (l.takeWhile Char.isDigit).isEmpty then none
  else if (l.dropWhile Char.isDigit).head? = some '.' then
    some (l.dropWhile Char.isDigit).tail
  else none

theorem digitRunDot_length {l r : List Char} (h : digitRunDot l = some r) :
    r.length < l.length := by
  unfold digitRunDot at h
  by_cases he : (l.takeWhile Char.isDigit).isEmpty
  · simp [he] at h
  · by_cases hdot : (l.dropWhile Char.isDigit).head? = some '.'
    · simp [he, hdot] at h
      subst h
      have h1 : (l.takeWhile Char.isDigit).length + (l.dropWhile Char.isDigit).length
          = l.length := by
        rw [← List.length_append, List.takeWhile_append_dropWhile]
      have h2 : 1 ≤ (l.takeWhile Char.isDigit).length := by
        rcases hq : l.takeWhile Char.isDigit with _ | ⟨a, b⟩
        · exact absurd (by simp [hq]) he
        · simp
      have h3 : (l.dropWhile Char.isDigit).tail.length + 1
          = (l.dropWhile Char.isDigit).length := by
        rcases hq : l.dropWhile Char.isDigit with _ | ⟨a, b⟩
        · rw [hq] at hdot; simp at hdot
        · simp
      omega
    · simp [he, hdot] at h

/-- Fuel-indexed core of `subDigitDots` (structural recursion on the fuel so
that it evaluates by kernel reduction; `digitRunDot_length` shows one unit of
fuel per character suffices). -/
def subDigitDotsAux : ℕ → List Char → List Char
  | 0, _ => []
  | _ + 1, [] => []
  | fuel + 1, c :: cs =>
    match digitRunDot (c :: cs) with
    | some rest => subDigitDotsAux fuel rest
    | none => c :: subDigitDotsAux fuel cs

/-- `re.sub(r'\d+\.', '', s)`-style removal of every digits-then-dot
occurrence, scanning left to right, skipping past each match. -/
def subDigitDots (l : List Char) : List Char := subDigitDotsAux l.length l

/-- The bullet characters of the list-item regex character class `[-*•]`. -/
def bulletChars : List Char := ['-', '*', '•']

/-- `re.match(r'^[-*•]|\d+\.', line)` (source line 54): the pattern is the
alternation `(^[-*•])|(\d+\.)`, and `re.match` anchors the attempt at position
0, so a line matches exactly when it starts with a bullet character or with
one or more digits followed by a dot. -/
def isListItemStart (l : List Char) : Bool :=
  match l with
  | c :: _ => c ∈ bulletChars || (digitRunDot l).isSome
  | [] => false

/-- `re.sub(r'^[-*•]|\d+\.', '', line)` (source line 56): the anchored
alternative can only fire once at position 0; after that, scanning removes
every digits-then-dot occurrence anywhere in the line. -/
def ruleSub (l : List Char) : List Char :=
  match l with
  | c :: cs => if c ∈ bulletChars then subDigitDots cs else subDigitDots l
  | [] => []

/-- The priority-marker update (source lines 46-51): case-sensitive substring
checks in fixed precedence order; no marker leaves the priority unchanged. -/
def priorityUpdate (pri : String) (line : List Char) : String :=
  if containsSub "CRITICAL".toList line || containsSub "MUST".toList line then "critical"
  else if containsSub "IMPORTANT".toList line || containsSub "SHOULD".toList line then "high"
  else if containsSub "OPTIONAL".toList line || containsSub "NICE TO HAVE".toList line then "low"
  else pri

/-- `line.replace('#', '').strip().lower()` (source line 42). -/
def categoryOf (line : List Char) : String :=
  ⟨(trimChars (line.filter (fun c => c ≠ '#'))).map Char.toLower⟩

/-- Python `line.strip('`')`: remove every leading and trailing backtick. -/
def stripBackticks (l : List Char) : List Char :=
  ((l.dropWhile (fun c => c = '`')).reverse.dropWhile (fun c => c = '`')).reverse

/-- The line loop of `parse_markdown_rule` (source lines 33-75), carrying the
sticky `current_category` / `current_priority` state.  `line = l.strip()` and
`current_priority` after the marker check are written out in each branch
rather than `let`-bound; the capture condition
`rule_text and len(rule_text) > 10` is `10 < length` (which already implies
nonemptiness). -/
def parseLoop (cat pri : String) : List (List Char) → List MdRule
  | [] => []
  | l :: ls =>
    if (trimChars l).isEmpty then parseLoop cat pri ls
    else if "##".toList.isPrefixOf (trimChars l) then
      parseLoop (categoryOf (trimChars l)) pri ls
    else if isListItemStart (trimChars l) then
      (if 10 < (trimChars (ruleSub (trimChars l))).length then
        [{ text := ⟨trimChars (ruleSub (trimChars l))⟩, category := cat,
           priority := priorityUpdate pri (trimChars l), source_file := none }]
       else []) ++ parseLoop cat (priorityUpdate pri (trimChars l)) ls
    else if (trimChars l).head? == some '`' && (trimChars l).getLast? == some '`' then
      (if 10 < (stripBackticks (trimChars l)).length then
        [{ text := "Code pattern: " ++ ⟨stripBackticks (trimChars l)⟩, category := cat,
           priority := priorityUpdate pri (trimChars l), source_file := none }]
       else []) ++ parseLoop cat (priorityUpdate pri (trimChars l)) ls
    else parseLoop cat (priorityUpdate pri (trimChars l)) ls

/-- `RulesIndexer.parse_markdown_rule` (source lines 25-77): split on newlines
and run the line loop from the defaults `category = "general"`,
`priority = "medium"`. -/
def parse_markdown_rule (content : String) : List MdRule :=
  parseLoop "general" "medium" (splitNl content.toList)

/-- Modelled from the spec claim's words (for comparison with the source): the
rule text a captured list item is claimed to carry — the line with only the
leading list marker stripped, then trimmed, the rest of the line unchanged. -/
def claimedRuleText (line : List Char) : List Char :=
  match line with
  | c :: cs =>
    if c ∈ bulletChars then trimChars cs
    else
      match digitRunDot line with
      | some rest => trimChars rest
      | none => trimChars line
  | [] => []

/-! ## `scanner.py` — `ProjectScanner`

File paths are modelled as their component lists relative to the configured
source root (`identify_module` reads exactly these components); the path
string used for ignore-pattern substring checks and stored in the file record
is the `/`-joined rendering.  The regex symbol/import extraction
(`extract_symbols` / `extract_imports`) is mechanical text matching that the
scan claims hold for any extractor, so the two extractors are inputs. -/

/-- The configuration fields `scan_project` reads from `config.json`. -/
structure ScanCfg where
  ignore_patterns : List String
  max_file_size_kb : ℕ
  modules : List String

/-- One file of the scanned source tree: its path components relative to the
source root, its name, its byte size, and its content (`none` models a read
that raises — `analyze_file` catches the exception and skips the file). -/
structure SrcFile where
  parts : List String
  name : String
  size_bytes : ℕ
  content : Option String
deriving DecidableEq

/-- The symbol and import extractors (`extract_symbols`, source lines 41-66,
and `extract_imports`, lines 68-71): category-to-names map and import list. -/
structure Extractors where
  symbols : String → List (String × List String)
  imports : String → List String

/-- The analysed file record built by `analyze_file` (source lines 88-96). -/
structure FileRec where
  path : List String
  name : String
  size_bytes : ℕ
  loc : ℕ
  symbols : List (String × List String)
  imports : List String
  has_tests : Bool
deriving DecidableEq

/-- The `/`-joined rendering of a path. -/
def pathString (parts : List String) : String := String.intercalate "/" parts

/-- `ProjectScanner.should_ignore` (source lines 26-39): any configured ignore
pattern, with `*` characters removed, occurring as a substring of the path
string, or the size check `size_bytes / 1024 > max_file_size_kb` (a float
division, equivalent to `size_bytes > 1024 * max_file_size_kb`). -/
def should_ignore (cfg : ScanCfg) (f : SrcFile) : Bool :=
  cfg.ignore_patterns.any
    (fun p => containsSub (p.toList.filter (fun c => c ≠ '*')) (pathString f.parts).toList)
  || 1024 * cfg.max_file_size_kb < f.size_bytes

/-- The LOC count of `analyze_file` (source lines 84-86): lines that are
nonempty after stripping and do not start with `//`. -/
def locCount (content : String) : ℕ :=
  ((splitNl content.toList).filter (fun l =>
    let t := trimChars l
    !t.isEmpty && !("//".toList.isPrefixOf t))).length

/-- `ProjectScanner.analyze_file` (source lines 73-99): `none` when reading
raised (the exception is caught, logged, and the file skipped). -/
def analyze_file (ext : Extractors) (f : SrcFile) : Option FileRec :=
  match f.content with
  | none => none
  | some c =>
    let imports := ext.imports c
    some { path := f.parts, name := f.name, size_bytes := f.size_bytes,
           loc := locCount c, symbols := ext.symbols c, imports := imports,
           has_tests := imports.contains "XCTest" || substrB "@Test" c }

/-- `ProjectScanner.identify_module` (source lines 101-114): the first path
component relative to the source root when it is a configured module name,
else the fallback bucket `"Misc"`. -/
def identify_module (cfg : ScanCfg) (parts : List String) : String :=
  match parts with
  | p :: _ => if cfg.modules.contains p then p else "Misc"
  | [] => "Misc"

/-- The in-construction module record (source lines 141-148); `dependencies`
is a Python set, modelled as the accumulated list that the final conversion
deduplicates (Python set iteration order is unspecified; the claims proved
here do not depend on it). -/
structure ModuleAcc where
  name : String
  files : List FileRec
  total_loc : ℕ
  key_symbols : List String
  dependencies : List String
deriving DecidableEq

/-- `f"{symbol_type[:-1]}:{symbol}"` (source line 156). -/
def symbolTag (ty nm : String) : String := ⟨ty.toList.dropLast⟩ ++ ":" ++ nm

/-- The `key_symbols` entries contributed by one file (source lines 154-156),
in the file's symbol-dict iteration order. -/
def renderSyms (fi : FileRec) : List String :=
  fi.symbols.flatMap (fun p => p.2.map (symbolTag p.1))

/-- Accumulating one analysed file into a module record (source lines
150-160). -/
def addRec (a : ModuleAcc) (fi : FileRec) : ModuleAcc :=
  { a with files := a.files ++ [fi], total_loc := a.total_loc + fi.loc,
           key_symbols := a.key_symbols ++ renderSyms fi,
           dependencies := a.dependencies ++ fi.imports }

/-- A fresh module record (source lines 142-148). -/
def emptyAcc (m : String) : ModuleAcc := ⟨m, [], 0, [], []⟩

/-- `modules[module_name]` update: Python dicts keep insertion order, so a new
module bucket is appended at the end, and an existing one is updated in
place. -/
def addToModule : List (String × ModuleAcc) → String → FileRec → List (String × ModuleAcc)
  | [], m, fi => [(m, addRec (emptyAcc m) fi)]
  | (n, a) :: t, m, fi =>
    if n = m then (n, addRec a fi) :: t else (n, a) :: addToModule t m fi

/-- `all_symbols[symbol] = file_info['path']` (source line 157): dict update,
last writer wins. -/
def symPut : List (String × List String) → String → List String → List (String × List String)
  | [], k, v => [(k, v)]
  | (k', v') :: t, k, v =>
    if k' = k then (k', v) :: t else (k', v') :: symPut t k v

/-- The symbol-lookup updates contributed by one file (source lines 154-157). -/
def addSymbols (sm : List (String × List String)) (fi : FileRec) :
    List (String × List String) :=
  fi.symbols.foldl (fun acc p => p.2.foldl (fun acc2 s => symPut acc2 s fi.path) acc) sm

/-- One iteration of the scan loop (source lines 127-160). -/
def scanStep (cfg : ScanCfg) (ext : Extractors)
    (st : List (String × ModuleAcc) × List (String × List String)) (f : SrcFile) :
    List (String × ModuleAcc) × List (String × List String) :=
  if should_ignore cfg f then st
  else
    match analyze_file ext f with
    | none => st
    | some fi => (addToModule st.1 (identify_module cfg f.parts) fi, addSymbols st.2 fi)

/-- The final conversion (source lines 162-165): dependencies deduplicated
(`list(set(...))`), symbol list deduplicated and capped at 20
(`list(set(...))[:20]`); Python's set order is unspecified, modelled as
first-occurrence order. -/
def finalizeModules (ms : List (String × ModuleAcc)) : List (String × ModuleAcc) :=
  ms.map (fun p =>
    let a := p.2
    (p.1, { a with dependencies := a.dependencies.dedup,
                   key_symbols := a.key_symbols.dedup.take 20 }))

/-- `ProjectScanner.scan_project` (source lines 116-167) over the enumerated
source files: the module map and the global symbol lookup. -/
def scan_project (cfg : ScanCfg) (ext : Extractors) (files : List SrcFile) :
    List (String × ModuleAcc) × List (String × List String) :=
  let res := files.foldl (scanStep cfg ext) ([], [])
  (finalizeModules res.1, res.2)

/-! ## `master_indexer.py` — `MasterIndexer`

The orchestrator's stages perform file I/O; each stage's outcome is modelled
as an `Except` input (`.error e` = the stage raised an exception with message
`e`), and the orchestration logic over those outcomes is the code's. -/

/-- `self.stats` (source lines 22-28; `start_time` is consumed only by the
duration rendering, which is an input here). -/
structure IndexerStats where
  modules_indexed : ℕ
  files_processed : ℕ
  rules_indexed : ℕ
  errors : List String
deriving DecidableEq

/-- The initial stats (source lines 22-28). -/
def initStats : IndexerStats := ⟨0, 0, 0, []⟩

/-- `MasterIndexer.run_scanner` (source lines 62-83): on success record module
and file counts and return `True`; on an exception record the error and return
`False`. -/
def run_scanner (st : IndexerStats) (res : Except String (List (String × ModuleAcc))) :
    Bool × IndexerStats :=
  match res with
  | .ok ms =>
    (true, { st with modules_indexed := ms.length,
                     files_processed := (ms.map (fun p => p.2.files.length)).sum })
  | .error e => (false, { st with errors := st.errors ++ ["Scanner failed: " ++ e] })

/-- `MasterIndexer.run_rules_indexer` (source lines 85-108): on an exception
the error is caught, logged, recorded — and `True` is returned anyway ("Not
critical - continue anyway"). -/
def run_rules_indexer (st : IndexerStats) (res : Except String RulesDoc) :
    Bool × IndexerStats :=
  match res with
  | .ok rules =>
    (true, { st with rules_indexed := rules.critical.length + rules.high.length
                       + rules.medium.length + rules.low.length })
  | .error e => (true, { st with errors := st.errors ++ ["Rules indexer failed: " ++ e] })

/-- The `stats` sub-object written into `index.json` (source lines 126-131). -/
structure IndexStatsOut where
  modules_indexed : ℕ
  files_processed : ℕ
  rules_indexed : ℕ
  indexing_duration : String
deriving DecidableEq

/-- The `index.json` document as `update_master_index` sees it: fields it never
touches are carried opaquely in `base`. -/
structure MasterIndexDoc where
  base : List (String × String)
  last_full_index : Option String
  stats : Option IndexStatsOut
  errors : Option (List String)
deriving DecidableEq

/-- `MasterIndexer.update_master_index` (source lines 110-143): load the prior
index (or start empty), set `last_full_index` and `stats`, and set `errors`
only when the run collected any (an existing `errors` key is otherwise left
as-is). -/
def update_master_index (prior : Option MasterIndexDoc) (st : IndexerStats)
    (now dur : String) : MasterIndexDoc :=
  let idx := prior.getD ⟨[], none, none, none⟩
  let idx := { idx with last_full_index := some now,
                        stats := some ⟨st.modules_indexed, st.files_processed,
                                       st.rules_indexed, dur⟩ }
  if st.errors.isEmpty then idx else { idx with errors := some st.errors }

/-- The observable outcome of `MasterIndexer.run` plus the process exit code
(`sys.exit(0 if success else 1)`, source line 222): whether the run reached
the summary, the updated master index, and the error list the summary
enumerates. -/
structure RunOutcome where
  exitCode : ℕ
  completed : Bool
  index : Option MasterIndexDoc
  summaryErrors : Option (List String)
deriving DecidableEq

/-- `MasterIndexer.run` (source lines 182-213) followed by `main`'s exit-code
choice: requirements check, required scanner stage (failure aborts with exit
code 1), optional rules-indexer stage, master-index update, summary. -/
def masterRun (reqOk : Bool) (scanRes : Except String (List (String × ModuleAcc)))
    (rulesRes : Except String RulesDoc) (prior : Option MasterIndexDoc)
    (now dur : String) : RunOutcome :=
  if !reqOk then ⟨1, false, none, none⟩
  else
    let s1 := run_scanner initStats scanRes
    if !s1.1 then ⟨1, false, none, none⟩
    else
      let s2 := run_rules_indexer s1.2 rulesRes
      let idx := update_master_index prior s2.2 now dur
      ⟨0, true, some idx, some s2.2.errors⟩

/-! ## Helper lemmas about `analyze_task` -/

theorem module_keywords_kws_ne_nil : ∀ p ∈ module_keywords, p.2 ≠ [] := by decide

theorem module_keywords_names_inj :
    ∀ p ∈ module_keywords, ∀ q ∈ module_keywords, p.1 = q.1 → p = q := by decide

theorem module_keywords_lower : ∀ p ∈ module_keywords, ∀ k ∈ p.2, lowerStr k = k := by decide

theorem keywordScore_pos_of_mem {kws : List String} {tl k : String} (hk : k ∈ kws)
    (hs : substrB k tl = true) : 0 < keywordScore kws tl := by
  rw [keywordScore, List.length_pos]
  exact List.ne_nil_of_mem (List.mem_filter.mpr ⟨hk, hs⟩)

theorem rawScores_mem_iff {tl m : String} {v : ℚ} :
    (m, v) ∈ rawScores tl ↔
      ∃ kws, (m, kws) ∈ module_keywords ∧ 0 < keywordScore kws tl ∧
        v = mkRat (keywordScore kws tl) kws.length := by
  simp only [rawScores, List.mem_filterMap]
  constructor
  · rintro ⟨⟨n, kws⟩, hp, hpv⟩
    by_cases hs : 0 < keywordScore kws tl
    · simp only [hs, if_pos, Prod.mk.injEq, Option.some.injEq] at hpv
      obtain ⟨rfl, rfl⟩ := hpv
      exact ⟨kws, hp, hs, rfl⟩
    · simp [hs] at hpv
  · rintro ⟨kws, hkm, hs, rfl⟩
    exact ⟨(m, kws), hkm, by simp [hs]⟩

theorem rawScores_pos {tl : String} : ∀ p ∈ rawScores tl, 0 < p.2 := by
  rintro ⟨m, v⟩ hp
  obtain ⟨kws, hkm, hs, rfl⟩ := rawScores_mem_iff.mp hp
  have hlen : 0 < kws.length :=
    List.length_pos.mpr (module_keywords_kws_ne_nil _ hkm)
  rw [Rat.mkRat_eq_div]
  exact div_pos (by exact_mod_cast hs) (by exact_mod_cast hlen)

theorem le_maxVal : ∀ {rs : List (String × ℚ)}, ∀ p ∈ rs, p.2 ≤ maxVal rs := by
  intro rs
  induction rs with
  | nil => simp
  | cons x t ih =>
    intro p hp
    have hmax : maxVal (x :: t) = max x.2 (maxVal t) := rfl
    rcases List.mem_cons.mp hp with rfl | hmem
    · rw [hmax]; exact le_max_left _ _
    · rw [hmax]; exact (ih p hmem).trans (le_max_right _ _)

theorem maxVal_mem : ∀ {rs : List (String × ℚ)}, rs ≠ [] → (∀ p ∈ rs, 0 < p.2) →
    ∃ p ∈ rs, p.2 = maxVal rs := by
  intro rs
  induction rs with
  | nil => intro h; exact absurd rfl h
  | cons x t ih =>
    intro _ hpos
    have hmax : maxVal (x :: t) = max x.2 (maxVal t) := rfl
    cases t with
    | nil =>
      refine ⟨x, by simp, ?_⟩
      rw [hmax]
      have h0 : maxVal ([] : List (String × ℚ)) = 0 := rfl
      rw [h0, max_eq_left (le_of_lt (hpos x (by simp)))]
    | cons y u =>
      obtain ⟨p, hp, hpm⟩ := ih (by simp)
        (fun q hq => hpos q (List.mem_cons_of_mem _ hq))
      rcases le_total (maxVal (y :: u)) x.2 with hle | hle
      · exact ⟨x, by simp, by rw [hmax, max_eq_left hle]⟩
      · exact ⟨p, List.mem_cons_of_mem _ hp, by rw [hmax, max_eq_right hle, hpm]⟩

theorem maxVal_pos {rs : List (String × ℚ)} (hne : rs ≠ [])
    (hpos : ∀ p ∈ rs, 0 < p.2) : 0 < maxVal rs := by
  obtain ⟨p, hp, hpm⟩ := maxVal_mem hne hpos
  rw [← hpm]
  exact hpos p hp

theorem mem_normalizeScores_of_mem {rs : List (String × ℚ)} {p : String × ℚ} (hp : p ∈ rs) :
    (p.1, qdiv p.2 (maxVal rs)) ∈ normalizeScores rs := by
  simp only [normalizeScores]
  have hmem : (p.1, qdiv p.2 (maxVal rs))
      ∈ rs.map (fun q => (q.1, qdiv q.2 (maxVal rs))) :=
    List.mem_map_of_mem _ hp
  split
  · exact hmem
  · exact List.mem_append_left _ hmem

theorem mem_normalizeScores_cases {rs : List (String × ℚ)} {q : String × ℚ}
    (hq : q ∈ normalizeScores rs) :
    (∃ p ∈ rs, q = (p.1, qdiv p.2 (maxVal rs))) ∨
      (q = ("Core", mkRat 3 10) ∧ ∀ p ∈ rs, p.1 ≠ "Core") := by
  simp only [normalizeScores] at hq
  split at hq
  case isTrue h =>
    left
    obtain ⟨p, hp, hpq⟩ := List.mem_map.mp hq
    exact ⟨p, hp, hpq.symm⟩
  case isFalse h =>
    rcases List.mem_append.mp hq with hmem | hcore
    · left
      obtain ⟨p, hp, hpq⟩ := List.mem_map.mp hmem
      exact ⟨p, hp, hpq.symm⟩
    · right
      refine ⟨by simpa using hcore, ?_⟩
      intro p hp hpc
      apply h
      rw [List.any_eq_true]
      exact ⟨(p.1, qdiv p.2 (maxVal rs)),
        List.mem_map_of_mem _ hp, by simp [hpc]⟩

theorem analyze_task_eq_norm {task : String} {r : String × ℚ} {rest : List (String × ℚ)}
    (h : rawScores (lowerStr task) = r :: rest) :
    analyze_task task = normalizeScores (r :: rest) := by
  unfold analyze_task
  rw [h]

theorem analyze_task_of_rawScores_nil {task : String}
    (h : rawScores (lowerStr task) = []) : analyze_task task = [] := by
  unfold analyze_task
  rw [h]

theorem analyze_task_pos {task : String} :
    ∀ q ∈ analyze_task task, 0 < q.2 ∧ q.2 ≤ 1 := by
  intro q hq
  rcases hraw : rawScores (lowerStr task) with _ | ⟨r, rest⟩
  · rw [analyze_task_of_rawScores_nil hraw] at hq
    simp at hq
  · rw [analyze_task_eq_norm hraw] at hq
    have hpos : ∀ p ∈ r :: rest, 0 < p.2 := by rw [← hraw]; exact rawScores_pos
    have hmx : 0 < maxVal (r :: rest) := maxVal_pos (by simp) hpos
    rcases mem_normalizeScores_cases hq with ⟨p, hp, rfl⟩ | ⟨rfl, _⟩
    · constructor
      · rw [qdiv_eq_div]
        exact div_pos (hpos p hp) hmx
      · rw [qdiv_eq_div, div_le_one hmx]
        exact le_maxVal p hp
    · constructor
      · rw [Rat.mkRat_eq_div]; norm_num
      · rw [Rat.mkRat_eq_div]; norm_num

theorem scoreOf_eq_none_iff {m : String} {A : List (String × ℚ)} :
    scoreOf m A = none ↔ ∀ q ∈ A, q.1 ≠ m := by
  simp only [scoreOf, Option.map_eq_none', List.find?_eq_none, beq_iff_eq]

theorem scoreOf_eq_some_of_exists {m : String} {A : List (String × ℚ)}
    (h : ∃ q ∈ A, q.1 = m) : ∃ q ∈ A, q.1 = m ∧ scoreOf m A = some q.2 := by
  have hs : (A.find? (fun p => p.1 == m)).isSome = true := by
    rw [List.find?_isSome]
    obtain ⟨q, hq, hqm⟩ := h
    exact ⟨q, hq, by simp [hqm]⟩
  rcases hfind : A.find? (fun p => p.1 == m) with _ | q₀
  · rw [hfind] at hs; simp at hs
  · exact ⟨q₀, List.mem_of_find?_eq_some hfind,
      by simpa using List.find?_some hfind, by simp [scoreOf, hfind]⟩

theorem normalizeScores_of_no_core {rs : List (String × ℚ)}
    (h : ∀ p ∈ rs, p.1 ≠ "Core") :
    normalizeScores rs
      = rs.map (fun p => (p.1, qdiv p.2 (maxVal rs))) ++ [("Core", mkRat 3 10)] := by
  simp only [normalizeScores]
  rw [if_neg]
  intro hany
  rw [List.any_eq_true] at hany
  obtain ⟨q, hq, hqc⟩ := hany
  obtain ⟨p, hp, rfl⟩ := List.mem_map.mp hq
  exact h p hp (by simpa using hqc)

/-- C1: for every task description in which at least one configured module
keyword occurs as a substring of the lowercased description, `analyze_task`
assigns each matched module `(count / keyword-set size) / (maximum such
fraction)`, all returned values lie in `(0, 1]`, some module scores exactly 1,
zero-match modules other than `Core` are omitted, and `Core` is present (at
0.3 when not matched); in particular, on
"Add dark mode toggle to Settings screen" both `Theme` and `Features` receive
positive scores and `Core` is force-included at 0.3. -/
theorem C1_analyze_task_relevance :
    (∀ task : String,
      (∃ p ∈ module_keywords, ∃ k ∈ p.2, substrB k (lowerStr task) = true) →
      (∀ q ∈ analyze_task task, 0 < q.2 ∧ q.2 ≤ 1) ∧
      (∃ q ∈ analyze_task task, q.2 = 1) ∧
      (∀ p ∈ module_keywords, 0 < keywordScore p.2 (lowerStr task) →
        (p.1, (keywordScore p.2 (lowerStr task) : ℚ) / (p.2.length : ℚ)
            / maxVal (rawScores (lowerStr task))) ∈ analyze_task task) ∧
      (∀ p ∈ module_keywords, keywordScore p.2 (lowerStr task) = 0 → p.1 ≠ "Core" →
        scoreOf p.1 (analyze_task task) = none) ∧
      (∃ v, scoreOf "Core" (analyze_task task) = some v ∧ 0 < v ∧
        (∀ kws, ("Core", kws) ∈ module_keywords →
          keywordScore kws (lowerStr task) = 0 → v = mkRat 3 10)) ∧
      (maxVal (rawScores (lowerStr task)) ∈ (rawScores (lowerStr task)).map Prod.snd ∧
        ∀ p ∈ rawScores (lowerStr task), p.2 ≤ maxVal (rawScores (lowerStr task)))) ∧
    (scoreOf "Theme" (analyze_task "Add dark mode toggle to Settings screen")
        = some (mkRat 11 14) ∧
      scoreOf "Features" (analyze_task "Add dark mode toggle to Settings screen")
        = some 1 ∧
      scoreOf "Core" (analyze_task "Add dark mode toggle to Settings screen")
        = some (mkRat 3 10) ∧
      (0 : ℚ) < mkRat 11 14 ∧ (0 : ℚ) < 1) := by
  constructor
  · intro task h
    obtain ⟨⟨n₀, kws₀⟩, hp₀, k₀, hk₀, hsub₀⟩ := h
    have hks₀ : 0 < keywordScore kws₀ (lowerStr task) := keywordScore_pos_of_mem hk₀ hsub₀
    have hmem₀ : (n₀, mkRat (keywordScore kws₀ (lowerStr task)) kws₀.length)
        ∈ rawScores (lowerStr task) := rawScores_mem_iff.mpr ⟨kws₀, hp₀, hks₀, rfl⟩
    have hne : rawScores (lowerStr task) ≠ [] := List.ne_nil_of_mem hmem₀
    rcases hraw : rawScores (lowerStr task) with _ | ⟨r, rest⟩
    · exact absurd hraw hne
    have hA : analyze_task task = normalizeScores (r :: rest) := analyze_task_eq_norm hraw
    have hpos : ∀ p ∈ r :: rest, 0 < p.2 := by rw [← hraw]; exact rawScores_pos
    have hmx : 0 < maxVal (r :: rest) := maxVal_pos (by simp) hpos
    refine ⟨analyze_task_pos, ?_, ?_, ?_, ?_, ?_⟩
    · obtain ⟨pm, hpm, hpmv⟩ := maxVal_mem (by simp) hpos
      refine ⟨(pm.1, qdiv pm.2 (maxVal (r :: rest))), ?_, ?_⟩
      · rw [hA]; exact mem_normalizeScores_of_mem hpm
      · show qdiv pm.2 (maxVal (r :: rest)) = 1
        rw [hpmv, qdiv_eq_div, div_self hmx.ne']
    · intro p hp hscore
      have hmem : (p.1, mkRat (keywordScore p.2 (lowerStr task)) p.2.length)
          ∈ rawScores (lowerStr task) := rawScores_mem_iff.mpr ⟨p.2, hp, hscore, rfl⟩
      rw [hraw] at hmem
      have hn := mem_normalizeScores_of_mem hmem
      rw [hA]
      have hval : (keywordScore p.2 (lowerStr task) : ℚ) / (p.2.length : ℚ)
          / maxVal (r :: rest)
          = qdiv (mkRat (keywordScore p.2 (lowerStr task)) p.2.length)
              (maxVal (r :: rest)) := by
        rw [qdiv_eq_div, Rat.mkRat_eq_div]
        push_cast
        ring
      rw [hval]
      simpa using hn
    · intro p hp hscore hpc
      rw [scoreOf_eq_none_iff]
      intro q hq
      rw [hA] at hq
      rcases mem_normalizeScores_cases hq with ⟨pr, hpr, rfl⟩ | ⟨rfl, _⟩
      · intro hname
        have hpr' : (pr.1, pr.2) ∈ rawScores (lowerStr task) := by
          rw [hraw]; simpa using hpr
        obtain ⟨kws', hkm', hks', _⟩ := rawScores_mem_iff.mp hpr'
        have heq := module_keywords_names_inj p hp (pr.1, kws') hkm' (by rw [hname])
        have hp2 : p.2 = kws' := by rw [heq]
        rw [hp2] at hscore
        omega
      · exact fun hname => hpc hname.symm
    · by_cases hcore : ∃ pr ∈ r :: rest, pr.1 = "Core"
      · obtain ⟨pr, hpr, hprc⟩ := hcore
        have hqmem : (pr.1, qdiv pr.2 (maxVal (r :: rest))) ∈ analyze_task task := by
          rw [hA]; exact mem_normalizeScores_of_mem hpr
        obtain ⟨q₀, hq₀, hq₀c, hq₀s⟩ := scoreOf_eq_some_of_exists
          ⟨(pr.1, qdiv pr.2 (maxVal (r :: rest))), hqmem, hprc⟩
        refine ⟨q₀.2, hq₀s, (analyze_task_pos q₀ hq₀).1, ?_⟩
        intro kws hkm hscore
        have hpr' : (pr.1, pr.2) ∈ rawScores (lowerStr task) := by
          rw [hraw]; simpa using hpr
        obtain ⟨kws', hkm', hks', _⟩ := rawScores_mem_iff.mp hpr'
        rw [hprc] at hkm'
        have heq := module_keywords_names_inj ("Core", kws) hkm ("Core", kws') hkm' rfl
        simp only [Prod.mk.injEq, true_and] at heq
        rw [heq] at hscore
        omega
      · push_neg at hcore
        have hnorm := normalizeScores_of_no_core hcore
        refine ⟨mkRat 3 10, ?_, by rw [Rat.mkRat_eq_div]; norm_num, fun _ _ _ => rfl⟩
        rw [hA, hnorm, scoreOf, List.find?_append]
        have hfn : ((r :: rest).map
            (fun p => (p.1, qdiv p.2 (maxVal (r :: rest))))).find?
              (fun p => p.1 == "Core") = none := by
          rw [List.find?_eq_none]
          intro x hx
          obtain ⟨p, hp, rfl⟩ := List.mem_map.mp hx
          simp [hcore p hp]
        rw [hfn]
        simp
    · constructor
      · obtain ⟨pm, hpm, hpmv⟩ := @maxVal_mem (r :: rest) (by simp) hpos
        rw [← hpmv]
        exact List.mem_map_of_mem Prod.snd hpm
      · exact fun p hp => le_maxVal p hp
  · refine ⟨by decide, by decide, by decide, by decide, by decide⟩

/-! ## C4: appending a keyword -/

theorem length_filter_mono {α : Type} {p q : α → Bool} (l : List α)
    (h : ∀ a, p a = true → q a = true) :
    (l.filter p).length ≤ (l.filter q).length := by
  induction l with
  | nil => simp
  | cons a t ih =>
    by_cases hpa : p a = true
    · rw [List.filter_cons_of_pos hpa, List.filter_cons_of_pos (h a hpa)]
      simpa using ih
    · rw [List.filter_cons_of_neg (by simpa using hpa)]
      rcases hqa : q a with _ | _
      · rw [List.filter_cons_of_neg (by simp [hqa])]
        exact ih
      · rw [List.filter_cons_of_pos hqa]
        exact ih.trans (by simp)

theorem lowerStr_append (s t : String) :
    (lowerStr (s ++ t)).toList = (lowerStr s).toList ++ (lowerStr t).toList :=
  List.map_append Char.toLower s.toList t.toList

theorem keywordScore_mono_append (kws : List String) (task k : String) :
    keywordScore kws (lowerStr task) ≤ keywordScore kws (lowerStr (task ++ k)) := by
  unfold keywordScore
  apply length_filter_mono
  intro a ha
  unfold substrB at ha ⊢
  rw [lowerStr_append]
  exact containsSub_append_left _ ha

theorem containsSub_refl (l : List Char) : containsSub l l = true :=
  containsSub_iff_isInfix.mpr (List.infix_refl l)

/-- C4 amended: appending a keyword `k` of module `m`'s configured set to the
task description never decreases `m`'s raw keyword count, hence never
decreases its unnormalized relevance fraction, and guarantees `m` appears in
the returned map with a positive normalized score; the NORMALIZED score itself
can decrease, because the appended text can raise another module's fraction
past the previous maximum (see the counterexample). -/
theorem C4_amended_append_keyword (task m : String) (kws : List String) (k : String)
    (hm : (m, kws) ∈ module_keywords) (hk : k ∈ kws) :
    keywordScore kws (lowerStr task) ≤ keywordScore kws (lowerStr (task ++ k)) ∧
    mkRat (keywordScore kws (lowerStr task)) kws.length
      ≤ mkRat (keywordScore kws (lowerStr (task ++ k))) kws.length ∧
    ∃ v, scoreOf m (analyze_task (task ++ k)) = some v ∧ 0 < v := by
  have hmono := keywordScore_mono_append kws task k
  have hlen : (0 : ℚ) < (kws.length : ℚ) := by
    have := List.length_pos.mpr (module_keywords_kws_ne_nil _ hm)
    exact_mod_cast this
  refine ⟨hmono, ?_, ?_⟩
  · rw [Rat.mkRat_eq_div, Rat.mkRat_eq_div]
    apply div_le_div_of_nonneg_right ?_ hlen.le
    exact_mod_cast hmono
  · have hlow : lowerStr k = k := module_keywords_lower _ hm _ hk
    have hsub : substrB k (lowerStr (task ++ k)) = true := by
      unfold substrB
      rw [lowerStr_append]
      apply containsSub_append_right
      rw [show (lowerStr k).toList = k.toList from by rw [hlow]]
      exact containsSub_refl _
    have hks : 0 < keywordScore kws (lowerStr (task ++ k)) :=
      keywordScore_pos_of_mem hk hsub
    have hmem : (m, mkRat (keywordScore kws (lowerStr (task ++ k))) kws.length)
        ∈ rawScores (lowerStr (task ++ k)) := rawScores_mem_iff.mpr ⟨kws, hm, hks, rfl⟩
    have hne : rawScores (lowerStr (task ++ k)) ≠ [] := List.ne_nil_of_mem hmem
    rcases hraw : rawScores (lowerStr (task ++ k)) with _ | ⟨r, rest⟩
    · exact absurd hraw hne
    rw [hraw] at hmem
    have hq : (m, qdiv (mkRat (keywordScore kws (lowerStr (task ++ k))) kws.length)
        (maxVal (r :: rest))) ∈ analyze_task (task ++ k) := by
      rw [analyze_task_eq_norm hraw]
      simpa using mem_normalizeScores_of_mem hmem
    obtain ⟨q₀, hq₀, _, hq₀s⟩ := scoreOf_eq_some_of_exists ⟨_, hq, rfl⟩
    exact ⟨q₀.2, hq₀s, (analyze_task_pos q₀ hq₀).1⟩

/-- C4 counterexample: the claim as stated is false.  "network commo" gives
`Network` the (unique, maximal) fraction 1/7, so its normalized score is 1;
appending Network's own keyword "network" produces
"network commonetwork", whose junction creates the `Utilities` keyword
"common" (a 5-keyword set, fraction 1/5 > 1/7), so Network's normalized score
drops to (1/7)/(1/5) = 5/7 < 1. -/
theorem C4_counterexample_append_keyword :
    ("Network", ["network", "api", "request", "http", "endpoint", "fetch", "moya"])
      ∈ module_keywords ∧
    "network" ∈ ["network", "api", "request", "http", "endpoint", "fetch", "moya"] ∧
    "network commo" ++ "network" = "network commonetwork" ∧
    scoreOf "Network" (analyze_task "network commo") = some 1 ∧
    scoreOf "Network" (analyze_task "network commonetwork") = some (mkRat 5 7) ∧
    mkRat 5 7 < 1 := by
  refine ⟨by decide, by decide, by decide, by decide, by decide, by decide⟩

/-- Witness for the amended C4 at a concrete input. -/
theorem C4_amended_append_keyword_witness :
    keywordScore ["network", "api", "request", "http", "endpoint", "fetch", "moya"]
        (lowerStr "x")
      ≤ keywordScore ["network", "api", "request", "http", "endpoint", "fetch", "moya"]
        (lowerStr ("x" ++ "network")) ∧
    mkRat (keywordScore ["network", "api", "request", "http", "endpoint", "fetch", "moya"]
        (lowerStr "x")) 7
      ≤ mkRat (keywordScore ["network", "api", "request", "http", "endpoint", "fetch",
        "moya"] (lowerStr ("x" ++ "network"))) 7 ∧
    ∃ v, scoreOf "Network" (analyze_task ("x" ++ "network")) = some v ∧ 0 < v :=
  C4_amended_append_keyword "x" "Network"
    ["network", "api", "request", "http", "endpoint", "fetch", "moya"] "network"
    (by decide) (by decide)

/-- Witness for C1 at the example task description. -/
theorem C1_analyze_task_relevance_witness :
    (∃ q ∈ analyze_task "Add dark mode toggle to Settings screen", q.2 = 1) ∧
    (∃ v, scoreOf "Core" (analyze_task "Add dark mode toggle to Settings screen")
        = some v ∧ 0 < v ∧
      (∀ kws, ("Core", kws) ∈ module_keywords →
        keywordScore kws (lowerStr "Add dark mode toggle to Settings screen") = 0 →
        v = mkRat 3 10)) :=
  let h := C1_analyze_task_relevance.1 "Add dark mode toggle to Settings screen" (by decide)
  ⟨h.2.1, h.2.2.2.2.1⟩

/-! ## C6: fallback relevance map -/

theorem getLast?_append_of_getLast? {α : Type} {l₂ : List α} {a : α} (l₁ : List α)
    (h : l₂.getLast? = some a) : (l₁ ++ l₂).getLast? = some a := by
  rw [List.getLast?_append, h]
  rfl

theorem getLast?_cons_of_getLast? {α : Type} {l : List α} {a b : α}
    (h : l.getLast? = some b) : (a :: l).getLast? = some b := by
  cases l with
  | nil => simp at h
  | cons c t => rw [List.getLast?_cons_cons]; exact h

/-- The assembled context always ends with the instructional footer. -/
theorem contextParts_getLast (env : GenEnv) (task : String) :
    (contextParts env task).getLast? = some (footerText task (tcFinal env task)) := by
  unfold contextParts
  apply getLast?_append_of_getLast?
  rfl

/-- C6: when the task description contains no configured module keyword,
`analyze_task` returns the empty map, `generate_context` substitutes exactly
the fixed fallback map `{Core: 1.0, Features: 0.5}`, and context generation
still proceeds to a digest (which always ends with the fixed footer). -/
theorem C6_fallback_scores (env : GenEnv) (task : String)
    (h : ∀ p ∈ module_keywords, ∀ k ∈ p.2, substrB k (lowerStr task) = false) :
    analyze_task task = [] ∧
    effectiveScores task = [("Core", 1), ("Features", mkRat 1 2)] ∧
    (contextParts env task).getLast? = some (footerText task (tcFinal env task)) := by
  have hraw : rawScores (lowerStr task) = [] := by
    rw [rawScores, List.filterMap_eq_nil_iff]
    intro p hp
    have hz : keywordScore p.2 (lowerStr task) = 0 := by
      rw [keywordScore, List.length_eq_zero, List.filter_eq_nil_iff]
      intro k hk
      simp [h p hp k hk]
    simp [hz]
  have h1 : analyze_task task = [] := analyze_task_of_rawScores_nil hraw
  refine ⟨h1, ?_, contextParts_getLast env task⟩
  unfold effectiveScores
  rw [h1]

/-- Witness for C6 at a concrete keyword-free task. -/
theorem C6_fallback_scores_witness :
    analyze_task "zzz" = [] ∧
    effectiveScores "zzz" = [("Core", 1), ("Features", mkRat 1 2)] ∧
    (contextParts ⟨1000, "t", fun _ => none, none, none⟩ "zzz").getLast?
      = some (footerText "zzz" (tcFinal ⟨1000, "t", fun _ => none, none, none⟩ "zzz")) :=
  C6_fallback_scores ⟨1000, "t", fun _ => none, none, none⟩ "zzz" (by decide)

/-! ## C2, C7, C10: the assembly loops -/

theorem moduleLoop_break (env : GenEnv) (l : List (String × ℚ)) {tc : ℕ}
    (h : 3 * env.maxTokens < 5 * tc) : moduleLoop env l tc = ([], tc) := by
  cases l with
  | nil => rfl
  | cons hd t =>
    obtain ⟨m, s⟩ := hd
    rw [moduleLoop, if_pos h]

/-- C2 amended: every module summary block is appended only while the running
size estimate has not exceeded 60% of the budget (the loop checks before each
append); the estimate at the point rule assembly begins may nevertheless
exceed 60%, because the header is appended unconditionally and an appended
block is only counted after its check (see the counterexample). -/
theorem C2_amended_module_blocks_within_budget (env : GenEnv)
    (mods : List (String × ℚ)) (tc : ℕ) :
    ∀ p ∈ (moduleLoop env mods tc).1, 5 * p.1 ≤ 3 * env.maxTokens := by
  induction mods generalizing tc with
  | nil =>
    intro p hp
    simp [moduleLoop] at hp
  | cons hd rest ih =>
    intro p hp
    obtain ⟨m, s⟩ := hd
    rw [moduleLoop] at hp
    by_cases hcond : 3 * env.maxTokens < 5 * tc
    · rw [if_pos hcond] at hp
      simp at hp
    · rw [if_neg hcond] at hp
      rcases hdoc : load_module_data env m with _ | d
      · rw [hdoc] at hp
        exact ih tc p hp
      · rw [hdoc] at hp
        simp only [List.mem_cons] at hp
        rcases hp with rfl | hp
        · simpa using Nat.le_of_not_lt hcond
        · exact ih _ p hp

/-- A small persisted `Theme` module document. -/
def c2Doc : ModuleData :=
  { purpose := "Theme colors and typography", total_files := 1, total_loc := 10,
    key_symbols := [], dependencies := [], files := [] }

/-- A generator environment whose configured budget is 10 tokens: the
unconditional header block alone exceeds 60% of it.  (A large budget is beaten
the same way by a large persisted `purpose` string, since a block's size is
only counted after its pre-append check.) -/
def c2Env : GenEnv :=
  { maxTokens := 10, now := "2025-01-01 00:00",
    docs := fun _ => none, rulesDoc := none, quickRef := none }

/-- C2 counterexample: on the task "theme" against `c2Env`, the running size
estimate at the point rule-section assembly begins HAS exceeded 60% of the
budget — the header is appended and counted without any threshold check. -/
theorem C2_counterexample_sixty_percent :
    3 * c2Env.maxTokens < 5 * tcAfterModules c2Env "theme" := by decide

/-- An environment with a comfortable budget and the small `Theme` document. -/
def c2WitnessEnv : GenEnv :=
  { maxTokens := 10000, now := "2025-01-01 00:00",
    docs := fun m => if m == "Theme" then some c2Doc else none,
    rulesDoc := none, quickRef := none }

/-- Witness for the amended C2: the block appended in `c2WitnessEnv` passed
its pre-append check. -/
theorem C2_amended_module_blocks_within_budget_witness :
    5 * ((0 : ℕ), moduleSection "Theme" 1 c2Doc).1 ≤ 3 * c2WitnessEnv.maxTokens :=
  C2_amended_module_blocks_within_budget c2WitnessEnv [("Theme", 1)] 0
    ((0 : ℕ), moduleSection "Theme" 1 c2Doc) (by decide)

/-- The enumerated rule lines, numbering from `i`. -/
def ruleLinesFrom (i : ℕ) : List RuleR → List String
  | [] => []
  | r :: rs => ruleLine i r :: ruleLinesFrom (i + 1) rs

/-- The total size estimate of those lines. -/
def ruleEstFrom (i : ℕ) : List RuleR → ℕ
  | [] => 0
  | r :: rs => estimate_tokens (ruleLine i r) + ruleEstFrom (i + 1) rs

theorem rulesLoop_no_budget (b : ℕ) : ∀ (rules : List RuleR) (i tc : ℕ),
    20 * (tc + ruleEstFrom i rules) ≤ 17 * b →
    rulesLoop b i tc rules = (ruleLinesFrom i rules, tc + ruleEstFrom i rules) := by
  intro rules
  induction rules with
  | nil =>
    intro i tc h
    simp [rulesLoop, ruleLinesFrom, ruleEstFrom]
  | cons r rs ih =>
    intro i tc h
    rw [ruleEstFrom] at h
    rw [rulesLoop, if_neg (by omega)]
    have hrec := ih (i + 1) (tc + estimate_tokens (ruleLine i r)) (by omega)
    show (ruleLine i r :: (rulesLoop b (i + 1) (tc + estimate_tokens (ruleLine i r)) rs).1,
          (rulesLoop b (i + 1) (tc + estimate_tokens (ruleLine i r)) rs).2)
        = (ruleLinesFrom i (r :: rs), tc + ruleEstFrom i (r :: rs))
    rw [hrec, ruleLinesFrom, ruleEstFrom]
    simp only [Prod.mk.injEq]
    exact ⟨trivial, by omega⟩

theorem load_rules_length_le (env : GenEnv) : (load_rules env).length ≤ 10 := by
  unfold load_rules
  rcases env.rulesDoc with _ | d
  · simp
  · simp only [List.length_append, List.length_take]
    have h1 := min_le_left 5 d.critical.length
    have h2 := min_le_left 5 d.high.length
    omega

/-- C7 amended: `load_rules` caps each priority bucket at its first 5, so the
rules section draws from at most the first 5 critical plus the first 5 high
persisted rules (at most 10; the top-12 slice never binds); when the 85%
budget stop does not intervene, the section is exactly those rules, enumerated
in order, critical first. -/
theorem C7_amended_rules_section (env : GenEnv) (task : String)
    (h : 20 * (tcAfterModules env task + ruleEstFrom 1 (load_rules env))
      ≤ 17 * env.maxTokens) :
    (rulesResult env task).1 = ruleLinesFrom 1 (load_rules env) ∧
    (load_rules env).length ≤ 10 ∧
    (∀ d, env.rulesDoc = some d →
      load_rules env = d.critical.take 5 ++ d.high.take 5) := by
  have htake : (load_rules env).take 12 = load_rules env :=
    List.take_of_length_le ((load_rules_length_le env).trans (by norm_num))
  refine ⟨?_, load_rules_length_le env, ?_⟩
  · unfold rulesResult
    rw [htake,
      rulesLoop_no_budget env.maxTokens (load_rules env) 1 (tcAfterModules env task) h]
  · intro d hd
    unfold load_rules
    rw [hd]

/-- Twelve persisted critical-priority rules. -/
def c7Rules : List RuleR :=
  (List.range 12).map (fun i => ⟨"critical rule text number " ++ Nat.repr i, "critical"⟩)

/-- A generator environment persisting those twelve rules under a budget that
never intervenes. -/
def c7Env : GenEnv :=
  { maxTokens := 100000, now := "2025-01-01 00:00", docs := fun _ => none,
    rulesDoc := some ⟨c7Rules, [], [], []⟩, quickRef := none }

/-- C7 counterexample: 12 combined critical+high rules are persisted (all
critical) and the budget does not intervene, yet the rules section holds only
5 lines, not the first 12 — `load_rules` takes only the first 5 per
priority bucket before the top-12 slice is ever applied. -/
theorem C7_counterexample_top_twelve :
    c7Rules.length = 12 ∧
    20 * (tcAfterModules c7Env "x" + ruleEstFrom 1 (load_rules c7Env))
      ≤ 17 * c7Env.maxTokens ∧
    (rulesResult c7Env "x").1.length = 5 := by
  refine ⟨by decide, by decide, by decide⟩

/-- Witness for the amended C7 against `c7Env`. -/
theorem C7_amended_rules_section_witness :
    (rulesResult c7Env "x").1 = ruleLinesFrom 1 (load_rules c7Env) ∧
    (load_rules c7Env).length ≤ 10 ∧
    (∀ d, c7Env.rulesDoc = some d →
      load_rules c7Env = d.critical.take 5 ++ d.high.take 5) :=
  C7_amended_rules_section c7Env "x" (by decide)

/-- C10: when a ranked module's persisted document is missing (or empty) —
`load_module_data` yields the falsy empty result — the module loop behaves
exactly as if that module were absent from the ranking: its summary block is
omitted, no error is raised, and the remaining blocks, running estimate and
later sections are unchanged. -/
theorem C10_missing_module_doc_skipped (env : GenEnv) (m : String) (s : ℚ)
    (pre suf : List (String × ℚ)) (tc : ℕ) (hm : load_module_data env m = none) :
    moduleLoop env (pre ++ (m, s) :: suf) tc = moduleLoop env (pre ++ suf) tc := by
  induction pre generalizing tc with
  | nil =>
    simp only [List.nil_append]
    rw [moduleLoop]
    by_cases hcond : 3 * env.maxTokens < 5 * tc
    · rw [if_pos hcond, moduleLoop_break env suf hcond]
    · rw [if_neg hcond, hm]
  | cons hd rest ih =>
    obtain ⟨mh, sh⟩ := hd
    simp only [List.cons_append]
    rw [moduleLoop, moduleLoop]
    by_cases hcond : 3 * env.maxTokens < 5 * tc
    · rw [if_pos hcond, if_pos hcond]
    · rw [if_neg hcond, if_neg hcond]
      rcases hdoc : load_module_data env mh with _ | d
      · exact ih tc
      · simp only [ih]

/-- An environment whose `Theme` document exists but whose `Storage` document
does not. -/
def c10Env : GenEnv :=
  { maxTokens := 1000, now := "t",
    docs := fun m => if m == "Theme" then some ⟨"p", 1, 2, [], [], []⟩ else none,
    rulesDoc := none, quickRef := none }

/-- Witness for C10 at a concrete ranking containing the undocumented
`Storage` module. -/
theorem C10_missing_module_doc_skipped_witness :
    moduleLoop c10Env ([("Theme", 1)] ++ ("Storage", mkRat 1 2) :: [("Theme", mkRat 1 4)]) 0
      = moduleLoop c10Env ([("Theme", 1)] ++ [("Theme", mkRat 1 4)]) 0 :=
  C10_missing_module_doc_skipped c10Env "Storage" (mkRat 1 2)
    [("Theme", 1)] [("Theme", mkRat 1 4)] 0 (by decide)

/-! ## C3, C5: rule extraction -/

/-- A line contains a critical marker (the first branch of the marker check). -/
def hasCriticalMarker (line : List Char) : Bool :=
  containsSub "CRITICAL".toList line || containsSub "MUST".toList line

/-- A line contains an important marker (the second branch). -/
def hasImportantMarker (line : List Char) : Bool :=
  containsSub "IMPORTANT".toList line || containsSub "SHOULD".toList line

/-- A line contains an optional marker (the third branch). -/
def hasOptionalMarker (line : List Char) : Bool :=
  containsSub "OPTIONAL".toList line || containsSub "NICE TO HAVE".toList line

/-- A line contains some priority marker. -/
def hasPriorityMarker (line : List Char) : Bool :=
  containsSub "CRITICAL".toList line || containsSub "MUST".toList line
  || containsSub "IMPORTANT".toList line || containsSub "SHOULD".toList line
  || containsSub "OPTIONAL".toList line || containsSub "NICE TO HAVE".toList line

/-- A raw input line that leaves the sticky priority unchanged: blank after
stripping, a `##` category header (consumed before the marker check), or free
of every marker substring. -/
def keepsPriority (l : List Char) : Bool :=
  (trimChars l).isEmpty || "##".toList.isPrefixOf (trimChars l)
  || !hasPriorityMarker (trimChars l)

theorem priorityUpdate_of_no_marker {pri : String} {line : List Char}
    (h : hasPriorityMarker line = false) : priorityUpdate pri line = pri := by
  unfold hasPriorityMarker at h
  simp only [Bool.or_eq_false_iff] at h
  obtain ⟨⟨⟨⟨⟨h1, h2⟩, h3⟩, h4⟩, h5⟩, h6⟩ := h
  unfold priorityUpdate
  rw [if_neg (by rw [h1, h2]; simp), if_neg (by rw [h3, h4]; simp),
    if_neg (by rw [h5, h6]; simp)]

theorem priorityUpdate_critical {pri : String} {line : List Char}
    (h : hasCriticalMarker line = true) : priorityUpdate pri line = "critical" := by
  unfold hasCriticalMarker at h
  unfold priorityUpdate
  rw [if_pos h]

theorem priorityUpdate_high {pri : String} {line : List Char}
    (him : hasImportantMarker line = true) (hcr : hasCriticalMarker line = false) :
    priorityUpdate pri line = "high" := by
  unfold hasCriticalMarker at hcr
  rw [Bool.or_eq_false_iff] at hcr
  unfold hasImportantMarker at him
  unfold priorityUpdate
  rw [if_neg (by rw [hcr.1, hcr.2]; simp), if_pos him]

theorem priorityUpdate_low {pri : String} {line : List Char}
    (hop : hasOptionalMarker line = true) (hcr : hasCriticalMarker line = false)
    (him : hasImportantMarker line = false) : priorityUpdate pri line = "low" := by
  unfold hasCriticalMarker at hcr
  unfold hasImportantMarker at him
  rw [Bool.or_eq_false_iff] at hcr him
  unfold hasOptionalMarker at hop
  unfold priorityUpdate
  rw [if_neg (by rw [hcr.1, hcr.2]; simp), if_neg (by rw [him.1, him.2]; simp),
    if_pos hop]

theorem parseLoop_priority_of_keeps :
    ∀ (ls : List (List Char)) (cat pri : String),
      (∀ l ∈ ls, keepsPriority l = true) →
      ∀ r ∈ parseLoop cat pri ls, r.priority = pri := by
  intro ls
  induction ls with
  | nil =>
    intro cat pri _ r hr
    simp [parseLoop] at hr
  | cons l ls ih =>
    intro cat pri hk r hr
    have hkl : keepsPriority l = true := hk l (by simp)
    have hkrest : ∀ l' ∈ ls, keepsPriority l' = true :=
      fun l' hl' => hk l' (List.mem_cons_of_mem _ hl')
    rw [parseLoop] at hr
    by_cases he : (trimChars l).isEmpty = true
    · rw [if_pos he] at hr
      exact ih cat pri hkrest r hr
    · rw [if_neg he] at hr
      by_cases hh : "##".toList.isPrefixOf (trimChars l) = true
      · rw [if_pos hh] at hr
        exact ih _ pri hkrest r hr
      · rw [if_neg hh] at hr
        have hnm : hasPriorityMarker (trimChars l) = false := by
          unfold keepsPriority at hkl
          rcases Bool.or_eq_true_iff.mp hkl with h' | h'
          · rcases Bool.or_eq_true_iff.mp h' with h'' | h''
            · exact absurd h'' he
            · exact absurd h'' hh
          · simpa using h'
        rw [priorityUpdate_of_no_marker hnm] at hr
        by_cases hitem : isListItemStart (trimChars l) = true
        · rw [if_pos hitem] at hr
          rcases List.mem_append.mp hr with hcap | hrec
          · by_cases h10 : 10 < (trimChars (ruleSub (trimChars l))).length
            · rw [if_pos h10] at hcap
              simp only [List.mem_singleton] at hcap
              rw [hcap]
            · rw [if_neg h10] at hcap
              simp at hcap
          · exact ih cat pri hkrest r hrec
        · rw [if_neg hitem] at hr
          by_cases hcode : ((trimChars l).head? == some '`'
              && (trimChars l).getLast? == some '`') = true
          · rw [if_pos hcode] at hr
            rcases List.mem_append.mp hr with hcap | hrec
            · by_cases h10 : 10 < (stripBackticks (trimChars l)).length
              · rw [if_pos h10] at hcap
                simp only [List.mem_singleton] at hcap
                rw [hcap]
              · rw [if_neg h10] at hcap
                simp at hcap
            · exact ih cat pri hkrest r hrec
          · rw [if_neg hcode] at hr
            exact ih cat pri hkrest r hr

/-- C3 amended: whenever a non-empty line that is not a category header
(after stripping, it does not start with `##`) contains one of the fixed
case-sensitive marker substrings, the current priority is updated to the
marker's class — checked in fixed precedence order, critical-markers before
important-markers before optional-markers — and that priority sticks: every
rule captured from that line on carries it until a later marker line changes
it.  A `##` header line updates only the category and leaves the priority
unchanged even when it contains a marker (see the counterexample).  The
claim's concrete example behaves as stated: CRITICAL marker, three captured
rules, OPTIONAL marker, one captured rule gives priorities critical,
critical, critical, low. -/
theorem C3_amended_sticky_priority :
    (∀ (cat pri : String) (l : List Char) (ls : List (List Char)),
      (trimChars l).isEmpty = false →
      "##".toList.isPrefixOf (trimChars l) = false →
      hasPriorityMarker (trimChars l) = true →
      (∀ l' ∈ ls, keepsPriority l' = true) →
      ∀ r ∈ parseLoop cat pri (l :: ls),
        r.priority = priorityUpdate pri (trimChars l)) ∧
    (∀ (pri : String) (line : List Char),
      (hasCriticalMarker line = true → priorityUpdate pri line = "critical") ∧
      (hasCriticalMarker line = false → hasImportantMarker line = true →
        priorityUpdate pri line = "high") ∧
      (hasCriticalMarker line = false → hasImportantMarker line = false →
        hasOptionalMarker line = true → priorityUpdate pri line = "low")) ∧
    ((parse_markdown_rule ("Rules marked CRITICAL for this module\n- first rule text for the parser\n- second rule text for the parser\n- third rule text for the parser\nThese are OPTIONAL suggestions\n- fourth rule text for the parser")).map
        (fun r => r.priority) = ["critical", "critical", "critical", "low"]) := by
  refine ⟨?_, ?_, by decide⟩
  · intro cat pri l ls hne hnh _ hkeep r hr
    rw [parseLoop] at hr
    rw [if_neg (by rw [hne]; simp), if_neg (by rw [hnh]; simp)] at hr
    by_cases hitem : isListItemStart (trimChars l) = true
    · rw [if_pos hitem] at hr
      rcases List.mem_append.mp hr with hcap | hrec
      · by_cases h10 : 10 < (trimChars (ruleSub (trimChars l))).length
        · rw [if_pos h10] at hcap
          simp only [List.mem_singleton] at hcap
          rw [hcap]
        · rw [if_neg h10] at hcap
          simp at hcap
      · exact parseLoop_priority_of_keeps ls cat (priorityUpdate pri (trimChars l))
          hkeep r hrec
    · rw [if_neg hitem] at hr
      by_cases hcode : ((trimChars l).head? == some '`'
          && (trimChars l).getLast? == some '`') = true
      · rw [if_pos hcode] at hr
        rcases List.mem_append.mp hr with hcap | hrec
        · by_cases h10 : 10 < (stripBackticks (trimChars l)).length
          · rw [if_pos h10] at hcap
            simp only [List.mem_singleton] at hcap
            rw [hcap]
          · rw [if_neg h10] at hcap
            simp at hcap
        · exact parseLoop_priority_of_keeps ls cat (priorityUpdate pri (trimChars l))
            hkeep r hrec
      · rw [if_neg hcode] at hr
        exact parseLoop_priority_of_keeps ls cat (priorityUpdate pri (trimChars l))
          hkeep r hr
  · intro pri line
    exact ⟨fun hc => priorityUpdate_critical hc,
      fun hc hi => priorityUpdate_high hi hc,
      fun hc hi ho => priorityUpdate_low ho hc hi⟩

/-- C3 counterexample: the claim's universal sentence fails on category-header
lines.  "## MUST" is a non-empty line containing the marker "MUST", but the
header branch consumes it before the marker check, so the following captured
rule keeps the default priority "medium" where the claim requires
"critical". -/
theorem C3_counterexample_header_marker :
    containsSub "MUST".toList (trimChars "## MUST".toList) = true ∧
    (parse_markdown_rule "## MUST\n- this rule follows a must header").map
        (fun r => r.priority) = ["medium"] := by
  refine ⟨by decide, by decide⟩

/-- Witness for the amended C3: a concrete critical-marker line followed by a
captured list item yields a critical-priority rule, an important-marker line
maps to "high", and an optional-marker line maps to "low" (also downgrading a
previously high priority). -/
theorem C3_amended_sticky_priority_witness :
    (∃ r ∈ parseLoop "general" "medium"
        ["CRITICAL:".toList, "- concrete sticky rule example".toList],
      r.priority = "critical") ∧
    priorityUpdate "medium" "this SHOULD happen".toList = "high" ∧
    priorityUpdate "high" "OPTIONAL extras".toList = "low" := by
  refine ⟨?_, ?_, ?_⟩
  · have h := C3_amended_sticky_priority.1 "general" "medium" "CRITICAL:".toList
      ["- concrete sticky rule example".toList] (by decide) (by decide) (by decide)
      (by decide)
    have hm : (⟨"concrete sticky rule example", "general", "critical", none⟩ : MdRule)
        ∈ parseLoop "general" "medium"
          ["CRITICAL:".toList, "- concrete sticky rule example".toList] := by decide
    exact ⟨_, hm, (h _ hm).trans (by decide)⟩
  · exact (C3_amended_sticky_priority.2.1 "medium" "this SHOULD happen".toList).2.1
      (by decide) (by decide)
  · exact (C3_amended_sticky_priority.2.1 "high" "OPTIONAL extras".toList).2.2
      (by decide) (by decide) (by decide)

theorem digitRunDot_head_digit {c : Char} {cs r : List Char}
    (h : digitRunDot (c :: cs) = some r) : c.isDigit = true := by
  by_cases hd : c.isDigit = true
  · exact hd
  · unfold digitRunDot at h
    rw [List.takeWhile_cons, if_neg hd] at h
    simp at h

/-- C5 amended: a stripped line that is a bulleted or numbered list item is
captured exactly when the text obtained by removing the leading list marker
AND every digits-then-dot occurrence anywhere in the line, then trimming, is
longer than 10 characters; the captured rule's text is that transformed text
— interior digits-then-dot sequences are removed by the `re.sub`, not
preserved (see the counterexample). -/
theorem C5_amended_list_item_capture (cat pri : String) (l : List Char)
    (hitem : isListItemStart (trimChars l) = true) :
    (parseLoop cat pri [l] ≠ [] ↔ 10 < (trimChars (ruleSub (trimChars l))).length) ∧
    (∀ r ∈ parseLoop cat pri [l], r.text = ⟨trimChars (ruleSub (trimChars l))⟩) := by
  have hne : (trimChars l).isEmpty = false := by
    cases htl : trimChars l with
    | nil => rw [htl] at hitem; simp [isListItemStart] at hitem
    | cons c cs => simp
  have hnh : "##".toList.isPrefixOf (trimChars l) = false := by
    cases htl : trimChars l with
    | nil => rw [htl] at hitem; simp [isListItemStart] at hitem
    | cons c cs =>
      rw [htl] at hitem
      have hor : c ∈ bulletChars ∨ (digitRunDot (c :: cs)).isSome = true := by
        simpa [isListItemStart] using hitem
      have hc : c ≠ '#' := by
        rcases hor with hb | hdig
        · intro hcc
          rw [hcc] at hb
          exact absurd hb (by decide)
        · intro hcc
          rcases Option.isSome_iff_exists.mp hdig with ⟨r, hr⟩
          have hd := digitRunDot_head_digit hr
          rw [hcc] at hd
          exact absurd hd (by decide)
      show List.isPrefixOf ['#', '#'] (c :: cs) = false
      rw [List.isPrefixOf]
      simp [Ne.symm hc]
  have hstep : parseLoop cat pri [l]
      = (if 10 < (trimChars (ruleSub (trimChars l))).length then
          [{ text := ⟨trimChars (ruleSub (trimChars l))⟩, category := cat,
             priority := priorityUpdate pri (trimChars l), source_file := none }]
         else []) := by
    rw [parseLoop]
    rw [if_neg (by rw [hne]; simp), if_neg (by rw [hnh]; simp), if_pos hitem]
    rw [show parseLoop cat (priorityUpdate pri (trimChars l)) [] = [] from rfl]
    rw [List.append_nil]
  rw [hstep]
  constructor
  · by_cases h10 : 10 < (trimChars (ruleSub (trimChars l))).length
    · rw [if_pos h10]
      simp [h10]
    · rw [if_neg h10]
      simp [h10]
  · intro r hr
    by_cases h10 : 10 < (trimChars (ruleSub (trimChars l))).length
    · rw [if_pos h10] at hr
      simp only [List.mem_singleton] at hr
      rw [hr]
    · rw [if_neg h10] at hr
      simp at hr

/-- C5 counterexample: for the list item "- 12345678901." the claim-side text
(only the leading marker stripped, then trimmed) is "12345678901." of length
12 > 10, so the claim predicts a captured rule with that text; the code's
`re.sub` also erases the digits-then-dot run, leaving nothing, and captures no
rule at all. -/
theorem C5_counterexample_digit_dot :
    (claimedRuleText (trimChars "- 12345678901.".toList)).length = 12 ∧
    String.mk (claimedRuleText (trimChars "- 12345678901.".toList)) = "12345678901." ∧
    parse_markdown_rule "- 12345678901." = [] := by
  refine ⟨by decide, by decide, by decide⟩

/-- Witness for the amended C5: a list item with an interior digits-then-dot
sequence is captured with that sequence's digits-and-dot removed. -/
theorem C5_amended_list_item_capture_witness :
    ∃ r ∈ parseLoop "general" "medium" ["- rule text with version 3.14 inside".toList],
      r.text = ⟨trimChars (ruleSub (trimChars "- rule text with version 3.14 inside".toList))⟩ := by
  have h := C5_amended_list_item_capture "general" "medium"
    "- rule text with version 3.14 inside".toList (by decide)
  have hm : (⟨"rule text with version 14 inside", "general", "medium", none⟩ : MdRule)
      ∈ parseLoop "general" "medium" ["- rule text with version 3.14 inside".toList] := by
    decide
  exact ⟨_, hm, h.2 _ hm⟩

/-! ## C8: the scan partition and LOC-sum invariant -/

/-- The invariant the scan loop maintains on the module map: distinct module
keys, every accumulated file record sits in the bucket its path identifies,
and each bucket's `total_loc` is the sum of its files' `loc`. -/
def ScanInv (cfg : ScanCfg) (ms : List (String × ModuleAcc)) : Prop :=
  (ms.map Prod.fst).Nodup ∧
  ∀ p ∈ ms, (∀ r ∈ p.2.files, identify_module cfg r.path = p.1) ∧
    p.2.total_loc = (p.2.files.map FileRec.loc).sum

theorem mem_keys_addToModule {ms : List (String × ModuleAcc)} {m : String}
    {fi : FileRec} {n : String} :
    n ∈ (addToModule ms m fi).map Prod.fst ↔ n ∈ ms.map Prod.fst ∨ n = m := by
  induction ms with
  | nil => simp [addToModule]
  | cons hd t ih =>
    obtain ⟨n₀, a⟩ := hd
    rw [addToModule]
    by_cases hnm : n₀ = m
    · subst hnm
      rw [if_pos rfl]
      simp only [List.map_cons, List.mem_cons]
      tauto
    · rw [if_neg hnm]
      simp only [List.map_cons, List.mem_cons, ih]
      tauto

theorem scanInv_addToModule {cfg : ScanCfg} {ms : List (String × ModuleAcc)}
    {m : String} {fi : FileRec} (hinv : ScanInv cfg ms)
    (hm : identify_module cfg fi.path = m) : ScanInv cfg (addToModule ms m fi) := by
  induction ms with
  | nil =>
    refine ⟨by simp [addToModule], ?_⟩
    intro p hp
    simp only [addToModule, List.mem_singleton] at hp
    subst hp
    refine ⟨?_, ?_⟩
    · intro r hr
      simp only [addRec, emptyAcc, List.nil_append, List.mem_singleton] at hr
      subst hr
      exact hm
    · simp [addRec, emptyAcc]
  | cons hd t ih =>
    obtain ⟨n₀, a⟩ := hd
    obtain ⟨hnodup, hbuckets⟩ := hinv
    rw [addToModule]
    by_cases hnm : n₀ = m
    · subst hnm
      rw [if_pos rfl]
      refine ⟨by simpa using hnodup, ?_⟩
      intro p hp
      rcases List.mem_cons.mp hp with rfl | hp'
      · obtain ⟨hid, hloc⟩ := hbuckets (n₀, a) (List.mem_cons_self _ _)
        refine ⟨?_, ?_⟩
        · intro r hr
          simp only [addRec, List.mem_append, List.mem_singleton] at hr
          rcases hr with hr | rfl
          · exact hid r hr
          · exact hm
        · have hloc' : a.total_loc = (a.files.map FileRec.loc).sum := hloc
          simp only [addRec, List.map_append, List.sum_append]
          simp [hloc']
      · exact hbuckets p (List.mem_cons_of_mem _ hp')
    · rw [if_neg hnm]
      have hinvt : ScanInv cfg t :=
        ⟨(List.nodup_cons.mp (by simpa using hnodup)).2,
         fun p hp => hbuckets p (List.mem_cons_of_mem _ hp)⟩
      obtain ⟨hnodup', hbuckets'⟩ := ih hinvt
      refine ⟨?_, ?_⟩
      · rw [List.map_cons, List.nodup_cons]
        refine ⟨?_, hnodup'⟩
        intro hmem
        rcases mem_keys_addToModule.mp hmem with h' | rfl
        · exact (List.nodup_cons.mp (by simpa using hnodup)).1 h'
        · exact hnm rfl
      · intro p hp
        rcases List.mem_cons.mp hp with rfl | hp'
        · exact hbuckets (n₀, a) (List.mem_cons_self _ _)
        · exact hbuckets' p hp'

theorem self_mem_addToModule (ms : List (String × ModuleAcc)) (m : String) (fi : FileRec) :
    ∃ acc, (m, acc) ∈ addToModule ms m fi ∧ fi ∈ acc.files := by
  induction ms with
  | nil =>
    exact ⟨addRec (emptyAcc m) fi, by simp [addToModule], by simp [addRec, emptyAcc]⟩
  | cons hd t ih =>
    obtain ⟨n₀, a⟩ := hd
    rw [addToModule]
    by_cases hnm : n₀ = m
    · subst hnm
      rw [if_pos rfl]
      exact ⟨addRec a fi, List.mem_cons_self _ _, by simp [addRec]⟩
    · rw [if_neg hnm]
      obtain ⟨acc, hacc, hfi⟩ := ih
      exact ⟨acc, List.mem_cons_of_mem _ hacc, hfi⟩

theorem mem_files_addToModule {ms : List (String × ModuleAcc)} {m : String}
    {fi : FileRec} {n : String} {acc : ModuleAcc} {r : FileRec}
    (h : (n, acc) ∈ ms) (hr : r ∈ acc.files) :
    ∃ acc', (n, acc') ∈ addToModule ms m fi ∧ r ∈ acc'.files := by
  induction ms with
  | nil => simp at h
  | cons hd t ih =>
    obtain ⟨n₀, a⟩ := hd
    rw [addToModule]
    by_cases hnm : n₀ = m
    · subst hnm
      rw [if_pos rfl]
      rcases List.mem_cons.mp h with heq | h'
      · injection heq with h1 h2
        subst h1
        subst h2
        exact ⟨addRec acc fi, List.mem_cons_self _ _,
          by simp only [addRec, List.mem_append]; exact Or.inl hr⟩
      · exact ⟨acc, List.mem_cons_of_mem _ h', hr⟩
    · rw [if_neg hnm]
      rcases List.mem_cons.mp h with heq | h'
      · exact ⟨acc, List.mem_cons.mpr (Or.inl heq), hr⟩
      · obtain ⟨acc', hacc', hr'⟩ := ih h'
        exact ⟨acc', List.mem_cons_of_mem _ hacc', hr'⟩

theorem analyze_file_path {ext : Extractors} {f : SrcFile} {fi : FileRec}
    (h : analyze_file ext f = some fi) : fi.path = f.parts := by
  obtain ⟨parts, name, size, content⟩ := f
  rcases content with _ | c
  · exact absurd h (by simp [analyze_file])
  · simp only [analyze_file, Option.some.injEq] at h
    rw [← h]

theorem scanInv_scanStep {cfg : ScanCfg} {ext : Extractors}
    {st : List (String × ModuleAcc) × List (String × List String)} {f : SrcFile}
    (hinv : ScanInv cfg st.1) : ScanInv cfg (scanStep cfg ext st f).1 := by
  unfold scanStep
  by_cases hig : should_ignore cfg f = true
  · rw [if_pos hig]
    exact hinv
  · rw [if_neg hig]
    rcases hfi : analyze_file ext f with _ | fi
    · simp only
      exact hinv
    · simp only
      exact scanInv_addToModule hinv (by rw [analyze_file_path hfi])

theorem mem_files_scanStep {cfg : ScanCfg} {ext : Extractors}
    {st : List (String × ModuleAcc) × List (String × List String)} {f : SrcFile}
    {n : String} {acc : ModuleAcc} {r : FileRec}
    (h : (n, acc) ∈ st.1) (hr : r ∈ acc.files) :
    ∃ acc', (n, acc') ∈ (scanStep cfg ext st f).1 ∧ r ∈ acc'.files := by
  unfold scanStep
  by_cases hig : should_ignore cfg f = true
  · rw [if_pos hig]
    exact ⟨acc, h, hr⟩
  · rw [if_neg hig]
    rcases hfi : analyze_file ext f with _ | fi
    · exact ⟨acc, h, hr⟩
    · exact mem_files_addToModule h hr

theorem scanFold_inv (cfg : ScanCfg) (ext : Extractors) :
    ∀ (files : List SrcFile) (st : List (String × ModuleAcc) × List (String × List String)),
      ScanInv cfg st.1 → ScanInv cfg (files.foldl (scanStep cfg ext) st).1 := by
  intro files
  induction files with
  | nil => intro st h; exact h
  | cons g rest ih =>
    intro st h
    exact ih _ (scanInv_scanStep h)

theorem scanFold_mem_mono (cfg : ScanCfg) (ext : Extractors) :
    ∀ (files : List SrcFile) (st : List (String × ModuleAcc) × List (String × List String))
      (n : String) (acc : ModuleAcc) (r : FileRec),
      (n, acc) ∈ st.1 → r ∈ acc.files →
      ∃ acc', (n, acc') ∈ (files.foldl (scanStep cfg ext) st).1 ∧ r ∈ acc'.files := by
  intro files
  induction files with
  | nil =>
    intro st n acc r h hr
    exact ⟨acc, h, hr⟩
  | cons g rest ih =>
    intro st n acc r h hr
    obtain ⟨acc', h', hr'⟩ := mem_files_scanStep (f := g) h hr
    exact ih _ n acc' r h' hr'

theorem scanFold_mem (cfg : ScanCfg) (ext : Extractors) (fi : FileRec) :
    ∀ (files : List SrcFile)
      (st : List (String × ModuleAcc) × List (String × List String)) (f : SrcFile),
      f ∈ files → should_ignore cfg f = false → analyze_file ext f = some fi →
      ∃ acc, (identify_module cfg f.parts, acc) ∈ (files.foldl (scanStep cfg ext) st).1
        ∧ fi ∈ acc.files := by
  intro files
  induction files with
  | nil =>
    intro st f hf
    simp at hf
  | cons g rest ih =>
    intro st f hf hig hfi
    rcases List.mem_cons.mp hf with rfl | hf'
    · have hstep : ∃ acc, (identify_module cfg f.parts, acc) ∈ (scanStep cfg ext st f).1
          ∧ fi ∈ acc.files := by
        unfold scanStep
        rw [if_neg (by rw [hig]; simp)]
        simp only [hfi]
        exact self_mem_addToModule st.1 (identify_module cfg f.parts) fi
      obtain ⟨acc, hacc, hfi'⟩ := hstep
      exact scanFold_mem_mono cfg ext rest _ _ acc fi hacc hfi'
    · exact ih _ f hf' hig hfi

theorem finalizeModules_mem_of {ms : List (String × ModuleAcc)} {n : String}
    {acc : ModuleAcc} (h : (n, acc) ∈ ms) :
    ∃ acc', (n, acc') ∈ finalizeModules ms ∧ acc'.files = acc.files ∧
      acc'.total_loc = acc.total_loc :=
  ⟨_, List.mem_map_of_mem _ h, rfl, rfl⟩

theorem of_mem_finalizeModules {ms : List (String × ModuleAcc)} {n : String}
    {acc' : ModuleAcc} (h : (n, acc') ∈ finalizeModules ms) :
    ∃ acc, (n, acc) ∈ ms ∧ acc'.files = acc.files ∧
      acc'.total_loc = acc.total_loc := by
  unfold finalizeModules at h
  obtain ⟨p, hp, hpe⟩ := List.mem_map.mp h
  injection hpe with h1 h2
  refine ⟨p.2, ?_, by rw [← h2], by rw [← h2]⟩
  rw [← h1]
  simpa using hp

theorem finalizeModules_keys (ms : List (String × ModuleAcc)) :
    (finalizeModules ms).map Prod.fst = ms.map Prod.fst := by
  unfold finalizeModules
  rw [List.map_map]
  rfl

/-- C8: every analysed (non-ignored, successfully read) file's record lands in
exactly one module bucket — the one its path's first component identifies
(module keys are pairwise distinct, so the bucket is unique) — and every
bucket's `total_loc` equals the sum of the `loc` fields of the file records it
holds. -/
theorem C8_scan_partition (cfg : ScanCfg) (ext : Extractors) (files : List SrcFile)
    (f : SrcFile) (fi : FileRec) (hf : f ∈ files)
    (hig : should_ignore cfg f = false) (hfi : analyze_file ext f = some fi) :
    (∃ acc, (identify_module cfg f.parts, acc) ∈ (scan_project cfg ext files).1
      ∧ fi ∈ acc.files) ∧
    (∀ n acc, (n, acc) ∈ (scan_project cfg ext files).1 → fi ∈ acc.files →
      n = identify_module cfg f.parts) ∧
    ((scan_project cfg ext files).1.map Prod.fst).Nodup ∧
    (∀ n acc, (n, acc) ∈ (scan_project cfg ext files).1 →
      acc.total_loc = (acc.files.map FileRec.loc).sum) := by
  have hinv : ScanInv cfg (files.foldl (scanStep cfg ext) ([], [])).1 :=
    scanFold_inv cfg ext files ([], []) ⟨by simp, by simp⟩
  have hpath : fi.path = f.parts := analyze_file_path hfi
  have hproj : (scan_project cfg ext files).1
      = finalizeModules (files.foldl (scanStep cfg ext) ([], [])).1 := rfl
  refine ⟨?_, ?_, ?_, ?_⟩
  · obtain ⟨acc, hacc, hin⟩ := scanFold_mem cfg ext fi files ([], []) f hf hig hfi
    obtain ⟨acc', hacc', hfiles, _⟩ := finalizeModules_mem_of hacc
    rw [hproj]
    exact ⟨acc', hacc', by rw [hfiles]; exact hin⟩
  · intro n acc hacc hin
    rw [hproj] at hacc
    obtain ⟨acc0, hacc0, hfiles, _⟩ := of_mem_finalizeModules hacc
    have hid := (hinv.2 (n, acc0) hacc0).1 fi (by rw [← hfiles]; exact hin)
    rw [hpath] at hid
    exact hid.symm
  · rw [hproj, finalizeModules_keys]
    exact hinv.1
  · intro n acc hacc
    rw [hproj] at hacc
    obtain ⟨acc0, hacc0, hfiles, hloc⟩ := of_mem_finalizeModules hacc
    rw [hloc, hfiles]
    exact (hinv.2 (n, acc0) hacc0).2

/-- A one-file source tree for the C8 witness. -/
def c8File : SrcFile :=
  ⟨["Core", "A.swift"], "A.swift", 100, some "let x = 1\nlet y = 2"⟩

/-- A scan configuration for the C8 witness. -/
def c8Cfg : ScanCfg := ⟨[], 1000, ["Core", "Features"]⟩

/-- Fixed extractors for the C8 witness. -/
def c8Ext : Extractors := ⟨fun _ => [("functions", ["f"])], fun _ => ["SwiftUI"]⟩

/-- The record `analyze_file` produces for `c8File`. -/
def c8Rec : FileRec :=
  ⟨["Core", "A.swift"], "A.swift", 100, 2, [("functions", ["f"])], ["SwiftUI"], false⟩

/-- Witness for C8 on the one-file tree. -/
theorem C8_scan_partition_witness :
    (∃ acc, (identify_module c8Cfg c8File.parts, acc) ∈ (scan_project c8Cfg c8Ext [c8File]).1
      ∧ c8Rec ∈ acc.files) ∧
    (∀ n acc, (n, acc) ∈ (scan_project c8Cfg c8Ext [c8File]).1 →
      acc.total_loc = (acc.files.map FileRec.loc).sum) := by
  have h := C8_scan_partition c8Cfg c8Ext [c8File] c8File c8Rec (by decide) (by decide)
    (by decide)
  exact ⟨h.1, h.2.2.2⟩

/-! ## C9: the optional rules-indexer stage -/

/-- C9: if the required scanner stage succeeds and the optional rules-indexing
stage raises, the orchestrator catches the exception, records the error in the
run's error list, persists it into the master index, continues the run to
completion (index updated, summary produced with the error enumerated), and
exits with code zero. -/
theorem C9_optional_rules_failure_tolerated
    (scanOut : List (String × ModuleAcc)) (e : String)
    (prior : Option MasterIndexDoc) (now dur : String) :
    (masterRun true (.ok scanOut) (.error e) prior now dur).exitCode = 0 ∧
    (masterRun true (.ok scanOut) (.error e) prior now dur).completed = true ∧
    (masterRun true (.ok scanOut) (.error e) prior now dur).summaryErrors
      = some ["Rules indexer failed: " ++ e] ∧
    ∃ idx, (masterRun true (.ok scanOut) (.error e) prior now dur).index = some idx ∧
      idx.errors = some ["Rules indexer failed: " ++ e] :=
  ⟨rfl, rfl, rfl, ⟨_, rfl, rfl⟩⟩
